import Mathlib

/-!
Verification of the arigato 9P2000.u server library.

This development shallowly embeds the wire codec (`src/raw/*`) and the
per-connection server state machine (`src/server/*`) of the arigato
crate, and proves the specification's claims about them.

Modelling conventions:
* machine integers are `Nat`, with `% 2^w` applied exactly where the
  Rust code's fixed-width types truncate;
* byte buffers and Rust `String`s are `List Nat` (a `String` is its
  UTF-8 byte sequence; validity is carried as a hypothesis);
* fallible Rust functions return `Option` / `Except`;
* `&mut self` methods of the back-end traits are modelled as functions
  returning the updated receiver alongside their result.
-/

namespace Arigato

/-- Byte sequences (each entry is one octet). -/
abbrev Bytes := List Nat

/-! ### Primitive codec: little-endian fixed width integers
(`src/raw/numbers.rs`). `dehydrate` writes `to_le_bytes`; `hydrate`
reads exactly that many bytes off the cursor, failing on EOF. -/

/-- `u8::to_le_bytes` -/
def deU8 (v : Nat) : Bytes := [v % 256]

/-- `u16::to_le_bytes` (little endian) -/
def deU16 (v : Nat) : Bytes := [v % 256, v / 256 % 256]

/-- `u32::to_le_bytes` (little endian) -/
def deU32 (v : Nat) : Bytes :=
  [v % 256, v / 256 % 256, v / 256 ^ 2 % 256, v / 256 ^ 3 % 256]

/-- `u64::to_le_bytes` (little endian) -/
def deU64 (v : Nat) : Bytes :=
  [v % 256, v / 256 % 256, v / 256 ^ 2 % 256, v / 256 ^ 3 % 256,
   v / 256 ^ 4 % 256, v / 256 ^ 5 % 256, v / 256 ^ 6 % 256, v / 256 ^ 7 % 256]

/-- `Cursor::read_exact` into an `n`-byte buffer: returns the bytes read and
the rest of the stream, or fails (`UnexpectedEof`) when fewer than `n`
bytes remain. -/
def readExact (n : Nat) (bs : Bytes) : Option (Bytes × Bytes) :=
  if n ≤ bs.length then some (bs.take n, bs.drop n) else none

/-- `u8::hydrate` -/
def rdU8 (bs : Bytes) : Option (Nat × Bytes) :=
  match bs with
  | [] => none
  | b :: r => some (b, r)

/-- `u16::from_le_bytes` over two cursor bytes. -/
def rdU16 (bs : Bytes) : Option (Nat × Bytes) :=
  match bs with
  | b0 :: b1 :: r => some (b0 + 256 * b1, r)
  | _ => none

/-- `u32::from_le_bytes` over four cursor bytes. -/
def rdU32 (bs : Bytes) : Option (Nat × Bytes) :=
  match bs with
  | b0 :: b1 :: b2 :: b3 :: r =>
    some (b0 + 256 * b1 + 256 ^ 2 * b2 + 256 ^ 3 * b3, r)
  | _ => none

/-- `u64::from_le_bytes` over eight cursor bytes. -/
def rdU64 (bs : Bytes) : Option (Nat × Bytes) :=
  match bs with
  | b0 :: b1 :: b2 :: b3 :: b4 :: b5 :: b6 :: b7 :: r =>
    some (b0 + 256 * b1 + 256 ^ 2 * b2 + 256 ^ 3 * b3 + 256 ^ 4 * b4
      + 256 ^ 5 * b5 + 256 ^ 6 * b6 + 256 ^ 7 * b7, r)
  | _ => none

/-! ### Byte-slice and sequence codec (`src/raw/vec.rs`)

`<&[T]>::dehydrate` writes `len:u16` (failing `TooLong` when the length
does not fit) followed by the elements; for `T = u8` the bytes are
written verbatim (`write_all`). `Vec<T>::hydrate` reads `len:u16` then
`len` elements. -/

/-- `<&[u8]>::dehydrate`: `len:u16` then the raw bytes; `TooLong` (none)
when the length exceeds `u16::MAX`. -/
def deBytes (l : Bytes) : Option Bytes :=
  if l.length < 256 ^ 2 then some (deU16 l.length ++ l) else none

/-- `Vec<u8>::hydrate`: `len:u16` then `len` single-byte hydrates. -/
def rdBytes (bs : Bytes) : Option (Bytes × Bytes) :=
  match rdU16 bs with
  | none => none
  | some (n, r) => readExact n r

/-! ### UTF-8 validation (`std::str::from_utf8`)

A faithful transcription of the UTF-8 well-formedness check the Rust
standard library performs when `String::hydrate` converts the raw bytes
to a `str`: 1-byte `00..7F`; 2-byte `C2..DF` + continuation; 3-byte
`E0 A0..BF`, `E1..EC`, `ED 80..9F` (no surrogates), `EE..EF`; 4-byte
`F0 90..BF`, `F1..F3`, `F4 80..8F` (max `U+10FFFF`); continuation
bytes are `80..BF`. -/

/-- Is `b` a UTF-8 continuation byte (`0x80..=0xBF`)? -/
def utf8Cont (b : Nat) : Bool := 0x80 ≤ b && b ≤ 0xBF

/-- UTF-8 validity of a byte sequence, as checked by `str::from_utf8`. -/
def utf8Valid : Bytes → Bool
  | [] => true
  | b :: r =>
    if b ≤ 0x7F then utf8Valid r
    else if 0xC2 ≤ b && b ≤ 0xDF then
      match r with
      | c1 :: r' => utf8Cont c1 && utf8Valid r'
      | _ => false
    else if b == 0xE0 then
      match r with
      | c1 :: c2 :: r' => (0xA0 ≤ c1 && c1 ≤ 0xBF) && utf8Cont c2 && utf8Valid r'
      | _ => false
    else if (0xE1 ≤ b && b ≤ 0xEC) || (0xEE ≤ b && b ≤ 0xEF) then
      match r with
      | c1 :: c2 :: r' => utf8Cont c1 && utf8Cont c2 && utf8Valid r'
      | _ => false
    else if b == 0xED then
      match r with
      | c1 :: c2 :: r' => (0x80 ≤ c1 && c1 ≤ 0x9F) && utf8Cont c2 && utf8Valid r'
      | _ => false
    else if b == 0xF0 then
      match r with
      | c1 :: c2 :: c3 :: r' =>
        (0x90 ≤ c1 && c1 ≤ 0xBF) && utf8Cont c2 && utf8Cont c3 && utf8Valid r'
      | _ => false
    else if 0xF1 ≤ b && b ≤ 0xF3 then
      match r with
      | c1 :: c2 :: c3 :: r' =>
        utf8Cont c1 && utf8Cont c2 && utf8Cont c3 && utf8Valid r'
      | _ => false
    else if b == 0xF4 then
      match r with
      | c1 :: c2 :: c3 :: r' =>
        (0x80 ≤ c1 && c1 ≤ 0x8F) && utf8Cont c2 && utf8Cont c3 && utf8Valid r'
      | _ => false
    else false

/-! ### String codec (`src/raw/string.rs`)

A Rust `String` is represented by its UTF-8 byte sequence.
`String::dehydrate` delegates to the byte-slice codec; `String::hydrate`
reads the byte slice and runs `str::from_utf8`, failing with
`UnicodeError` on invalid UTF-8. -/

/-- `String::dehydrate` (via `&str` → `&[u8]`). -/
def deStr (s : Bytes) : Option Bytes := deBytes s

/-- `String::hydrate`: `Vec<u8>::hydrate` then `str::from_utf8`. -/
def rdStr (bs : Bytes) : Option (Bytes × Bytes) :=
  match rdBytes bs with
  | none => none
  | some (l, r) => if utf8Valid l then some (l, r) else none

/-- Generic sequence dehydrate for the non-`u8` `<&[T]>::dehydrate` path:
`len:u16` then each element's dehydrate. -/
def deList {α : Type} (de : α → Option Bytes) (l : List α) : Option Bytes :=
  if l.length < 256 ^ 2 then
    (l.foldr (fun a acc => do
        let b ← de a
        let r ← acc
        pure (b ++ r)) (some [])).map (deU16 l.length ++ ·)
  else none

/-- Generic `Vec<T>::hydrate` body: read `n` elements. -/
def rdCount {α : Type} (rd : Bytes → Option (α × Bytes)) :
    Nat → Bytes → Option (List α × Bytes)
  | 0, bs => some ([], bs)
  | n + 1, bs =>
    match rd bs with
    | none => none
    | some (a, r) =>
      match rdCount rd n r with
      | none => none
      | some (as_, r') => some (a :: as_, r')

/-- Generic `Vec<T>::hydrate`: `len:u16` then `len` elements. -/
def rdList {α : Type} (rd : Bytes → Option (α × Bytes)) (bs : Bytes) :
    Option (List α × Bytes) :=
  match rdU16 bs with
  | none => none
  | some (n, r) => rdCount rd n r

/-! ### FileType, OpenMode and Qid (`src/raw/protocol.rs`) -/

/-- The logical kind of a file (`FileType` in `src/raw/protocol.rs`). -/
inductive FileType
  | Dir
  | Append
  | Excl
  | Auth
  | Tmp
  | Link
  | Device
  | NamedPipe
  | Socket
  | File
  | Unknown (v : Nat)
deriving DecidableEq, Repr

/-- `impl From<FileType> for u8` — the qid-type byte. -/
def fileTypeToU8 : FileType → Nat
  | .Dir => 0x80
  | .Append => 0x40
  | .Excl => 0x20
  | .Auth => 0x08
  | .Tmp => 0x04
  | .Link => 0x02
  | .File => 0x00
  | .Unknown v => v
  -- special types are not represented in a uint8
  | .Device => 0x00
  | .NamedPipe => 0x00
  | .Socket => 0x00

/-- `impl From<u8> for FileType`. -/
def u8ToFileType (v : Nat) : FileType :=
  match v with
  | 0x80 => .Dir
  | 0x40 => .Append
  | 0x20 => .Excl
  | 0x08 => .Auth
  | 0x04 => .Tmp
  | 0x02 => .Link
  | 0x00 => .File
  | _ => .Unknown v

/-- `impl From<FileType> for u32` — the high byte of the mode word plus
the special-kind bits. -/
def fileTypeToU32 (qt : FileType) : Nat :=
  (fileTypeToU8 qt % 256) <<< 24 |||
    match qt with
    | .Device => 0x00800000
    | .NamedPipe => 0x00200000
    | .Socket => 0x00100000
    | _ => 0

/-- `impl From<u32> for FileType`: mask the low nine permission bits,
test the special patterns, else take the top byte. -/
def u32ToFileType (v : Nat) : FileType :=
  let v := v &&& 0xfffffe00
  match v with
  | 0x00800000 => .Device
  | 0x00200000 => .NamedPipe
  | 0x00100000 => .Socket
  | _ => u8ToFileType (v >>> 24)

/-- `FileType::dehydrate` — a single byte. -/
def deFileType (ft : FileType) : Bytes := deU8 (fileTypeToU8 ft)

/-- `FileType::hydrate` — a single byte. -/
def rdFileType (bs : Bytes) : Option (FileType × Bytes) :=
  match rdU8 bs with
  | none => none
  | some (v, r) => some (u8ToFileType v, r)

/-- The qid-type byte of `ft` survives the `u8` round trip. This is the
well-formedness condition under which `FileType` (and hence `Qid`)
round-trips; it excludes `Device`/`NamedPipe`/`Socket` (which encode as
`0x00` and decode as `File`) and `Unknown(v)` for reserved `v`. -/
def FileType.wfByte (ft : FileType) : Prop :=
  fileTypeToU8 ft < 256 ∧ u8ToFileType (fileTypeToU8 ft) = ft

instance : DecidablePred FileType.wfByte := fun ft =>
  inferInstanceAs (Decidable (_ ∧ _))

/-- `OpenMode` is a raw `u8` (`OpenMode(u8)` newtype). -/
abbrev OpenMode := Nat

/-- `Qid`: type byte, version, path (`src/raw/protocol.rs`). -/
structure Qid where
  ty : FileType
  version : Nat
  path : Nat
deriving DecidableEq, Repr

/-- `Qid::dehydrate`: type byte, `version:u32`, `path:u64`. -/
def deQid (q : Qid) : Bytes := deFileType q.ty ++ deU32 q.version ++ deU64 q.path

/-- `Qid::hydrate`. -/
def rdQid (bs : Bytes) : Option (Qid × Bytes) :=
  match rdFileType bs with
  | none => none
  | some (ty, r) =>
    match rdU32 r with
    | none => none
    | some (ver, r') =>
      match rdU64 r' with
      | none => none
      | some (p, r'') => some (⟨ty, ver, p⟩, r'')

/-- Well-formedness of a `Qid` value for the round trip: type byte
round-trips, version and path are in their bit widths. -/
def Qid.wf (q : Qid) : Prop :=
  q.ty.wfByte ∧ q.version < 256 ^ 4 ∧ q.path < 256 ^ 8

instance : DecidablePred Qid.wf := fun q =>
  inferInstanceAs (Decidable (_ ∧ _))

/-! ### Version (`src/raw/version.rs`) -/

/-- A negotiated protocol version: `id[.variant]`. The `id` and
`variant` are Rust `String`s, represented by their UTF-8 bytes. -/
structure Version where
  id : Bytes
  variant : Option Bytes
deriving DecidableEq, Repr

/-- `VersionError` (`MismatchedId` / `MismatchedVariant`; the string
decoding errors are folded into the codec's `Option`). -/
inductive VersionError
  | MismatchedId
  | MismatchedVariant
deriving DecidableEq, Repr

/-- `Version::try_negotiate` (`src/raw/version.rs:84-98`). -/
def Version.tryNegotiate (self other : Version) : Except VersionError Version :=
  if self.id ≠ other.id then
    .error .MismatchedId
  else if self.variant = other.variant ∨ self.variant = none then
    .ok self
  else
    .error .MismatchedVariant

/-- `Display for Version`: `id` or `id.variant` (`.` is byte 46). -/
def Version.format (v : Version) : Bytes :=
  match v.variant with
  | some variant => v.id ++ 46 :: variant
  | none => v.id

/-- `FromStr for Version`: split on the first `.`. -/
def parseVersion : Bytes → Version
  | [] => ⟨[], none⟩
  | b :: r =>
    if b = 46 then ⟨[], some r⟩
    else
      let v := parseVersion r
      ⟨b :: v.id, v.variant⟩

/-- `Version::dehydrate`: format to a string, then string-dehydrate. -/
def deVersion (v : Version) : Option Bytes := deStr v.format

/-- `Version::hydrate`: `String::hydrate` then parse (the parse itself
never fails). -/
def rdVersion (bs : Bytes) : Option (Version × Bytes) :=
  match rdStr bs with
  | none => none
  | some (s, r) => some (parseVersion s, r)

/-- Well-formedness of a `Version` value: the id contains no `.` (an
invariant every `FromStr`-constructed version has) and the byte
sequences are valid UTF-8. -/
def Version.wf (v : Version) : Prop :=
  (46 ∉ v.id) ∧ utf8Valid v.format = true

instance : DecidablePred Version.wf := fun v =>
  inferInstanceAs (Decidable (_ ∧ _))

/-! ### Stat (`src/raw/stat.rs`) -/

/-- The 9P2000.u directory-entry record. String fields are UTF-8 byte
sequences. -/
structure Stat where
  ty : Nat
  dev : Nat
  qid : Qid
  mode : Nat
  atime : Nat
  mtime : Nat
  length : Nat
  name : Bytes
  uid : Bytes
  gid : Bytes
  muid : Bytes
  extension : Bytes
  nuid : Nat
  ngid : Nat
  nmuid : Nat
deriving DecidableEq, Repr

/-- The body of `Stat::dehydrate` (the scratch-buffer pass, before the
outer `u16` length is prepended). -/
def deStatBody (s : Stat) : Option Bytes := do
  let name ← deStr s.name
  let uid ← deStr s.uid
  let gid ← deStr s.gid
  let muid ← deStr s.muid
  let ext ← deStr s.extension
  pure (deU16 s.ty ++ deU32 s.dev ++ deQid s.qid ++ deU32 s.mode ++
    deU32 s.atime ++ deU32 s.mtime ++ deU64 s.length ++
    name ++ uid ++ gid ++ muid ++ ext ++
    deU32 s.nuid ++ deU32 s.ngid ++ deU32 s.nmuid)

/-- `Stat::dehydrate`: serialize the body into a scratch buffer, then
emit it as a byte slice (`len:u16` + body, `TooLarge` when the length
exceeds `u16::MAX`). -/
def deStat (s : Stat) : Option Bytes := do
  let body ← deStatBody s
  deBytes body

/-- `Stat::hydrate`: read the leading `u16` size, then the fields.
(The source's `Vec::with_capacity(size)` produces a zero-length buffer,
so its `read_exact` call consumes nothing: the size prefix is read but
otherwise ignored.) -/
def rdStat (bs : Bytes) : Option (Stat × Bytes) :=
  match rdU16 bs with
  | none => none
  | some (_size, r) =>
    match rdU16 r with
    | none => none
    | some (ty, r) =>
    match rdU32 r with
    | none => none
    | some (dev, r) =>
    match rdQid r with
    | none => none
    | some (qid, r) =>
    match rdU32 r with
    | none => none
    | some (mode, r) =>
    match rdU32 r with
    | none => none
    | some (atime, r) =>
    match rdU32 r with
    | none => none
    | some (mtime, r) =>
    match rdU64 r with
    | none => none
    | some (length, r) =>
    match rdStr r with
    | none => none
    | some (name, r) =>
    match rdStr r with
    | none => none
    | some (uid, r) =>
    match rdStr r with
    | none => none
    | some (gid, r) =>
    match rdStr r with
    | none => none
    | some (muid, r) =>
    match rdStr r with
    | none => none
    | some (ext, r) =>
    match rdU32 r with
    | none => none
    | some (nuid, r) =>
    match rdU32 r with
    | none => none
    | some (ngid, r) =>
    match rdU32 r with
    | none => none
    | some (nmuid, r) =>
      some (⟨ty, dev, qid, mode, atime, mtime, length,
        name, uid, gid, muid, ext, nuid, ngid, nmuid⟩, r)

/-- Well-formedness of a `Stat` value: numeric fields within their bit
widths, qid round-trippable, strings valid UTF-8. -/
def Stat.wf (s : Stat) : Prop :=
  s.ty < 256 ^ 2 ∧ s.dev < 256 ^ 4 ∧ s.qid.wf ∧ s.mode < 256 ^ 4 ∧
  s.atime < 256 ^ 4 ∧ s.mtime < 256 ^ 4 ∧ s.length < 256 ^ 8 ∧
  utf8Valid s.name = true ∧ utf8Valid s.uid = true ∧
  utf8Valid s.gid = true ∧ utf8Valid s.muid = true ∧
  utf8Valid s.extension = true ∧
  s.nuid < 256 ^ 4 ∧ s.ngid < 256 ^ 4 ∧ s.nmuid < 256 ^ 4

instance : DecidablePred Stat.wf := fun s =>
  inferInstanceAs (Decidable (_ ∧ _))

/-! ### T messages (`src/raw/messages_t.rs`) -/

/-- Client-to-server messages (9P2000.u). -/
inductive T
  | Unknown (ty : Nat) (tag : Nat) (buf : Bytes)
  | Version (tag : Nat) (msize : Nat) (version : Version)
  | Auth (tag : Nat) (afid : Nat) (uname aname : Bytes) (nuname : Nat)
  | Attach (tag : Nat) (fid afid : Nat) (uname aname : Bytes) (nuname : Nat)
  | Flush (tag : Nat) (oldtag : Nat)
  | Walk (tag : Nat) (fid newfid : Nat) (wnames : List Bytes)
  | Open (tag : Nat) (fid : Nat) (mode : OpenMode)
  | Create (tag : Nat) (fid : Nat) (name : Bytes) (perm : Nat)
      (mode : Nat) (extension : Bytes)
  | Read (tag : Nat) (fid : Nat) (offset count : Nat)
  | Write (tag : Nat) (fid : Nat) (offset : Nat) (data : Bytes)
  | Clunk (tag : Nat) (fid : Nat)
  | Remove (tag : Nat) (fid : Nat)
  | Stat (tag : Nat) (fid : Nat)
  | WStat (tag : Nat) (fid : Nat) (stat : Stat)
deriving DecidableEq, Repr

/-- `T::tag`. -/
def T.tag : T → Nat
  | .Unknown _ tag _ => tag
  | .Version tag _ _ => tag
  | .Auth tag _ _ _ _ => tag
  | .Attach tag _ _ _ _ _ => tag
  | .Flush tag _ => tag
  | .Walk tag _ _ _ => tag
  | .Open tag _ _ => tag
  | .Create tag _ _ _ _ _ => tag
  | .Read tag _ _ _ => tag
  | .Write tag _ _ _ => tag
  | .Clunk tag _ => tag
  | .Remove tag _ => tag
  | .Stat tag _ => tag
  | .WStat tag _ _ => tag

/-- `T::dehydrate`. -/
def deT : T → Option Bytes
  | .Version tag msize version => do
    let v ← deVersion version
    pure (deU8 100 ++ deU16 tag ++ deU32 msize ++ v)
  | .Auth tag afid uname aname nuname => do
    let u ← deStr uname
    let a ← deStr aname
    pure (deU8 102 ++ deU16 tag ++ deU32 afid ++ u ++ a ++ deU32 nuname)
  | .Attach tag fid afid uname aname nuname => do
    let u ← deStr uname
    let a ← deStr aname
    pure (deU8 104 ++ deU16 tag ++ deU32 fid ++ deU32 afid ++ u ++ a ++
      deU32 nuname)
  | .Flush tag oldtag =>
    pure (deU8 108 ++ deU16 tag ++ deU16 oldtag)
  | .Walk tag fid newfid wnames => do
    let ws ← deList deStr wnames
    pure (deU8 110 ++ deU16 tag ++ deU32 fid ++ deU32 newfid ++ ws)
  | .Open tag fid mode =>
    pure (deU8 112 ++ deU16 tag ++ deU32 fid ++ deU8 mode)
  | .Create tag fid name perm mode extension => do
    let n ← deStr name
    let e ← deStr extension
    pure (deU8 114 ++ deU16 tag ++ deU32 fid ++ n ++ deU32 perm ++
      deU8 mode ++ e)
  | .Read tag fid offset count =>
    pure (deU8 116 ++ deU16 tag ++ deU32 fid ++ deU64 offset ++ deU32 count)
  | .Write tag fid offset data =>
    -- manual u32-count framing; fails TooLong when the length exceeds u32
    if data.length < 256 ^ 4 then
      pure (deU8 118 ++ deU16 tag ++ deU32 fid ++ deU64 offset ++
        deU32 data.length ++ data)
    else none
  | .Clunk tag fid =>
    pure (deU8 120 ++ deU16 tag ++ deU32 fid)
  | .Remove tag fid =>
    pure (deU8 122 ++ deU16 tag ++ deU32 fid)
  | .Stat tag fid =>
    pure (deU8 124 ++ deU16 tag ++ deU32 fid)
  | .WStat tag fid stat => do
    -- the stat is serialized to a scratch buffer and wrapped in a second
    -- u16 size prefix ("see bugs in stat(9P)")
    let sb ← deStat stat
    if sb.length < 256 ^ 2 then
      pure (deU8 126 ++ deU16 tag ++ deU32 fid ++ deU16 sb.length ++ sb)
    else none
  | .Unknown ty tag buf =>
    pure (deU8 ty ++ deU16 tag ++ buf)

/-- `T::hydrate`: type byte, tag, then the per-opcode payload; an
unrecognized type byte yields `Unknown` holding the remaining bytes. -/
def rdT (bs : Bytes) : Option (T × Bytes) :=
  match rdU8 bs with
  | none => none
  | some (ty, r) =>
  match rdU16 r with
  | none => none
  | some (tag, r) =>
  if ty = 100 then
    match rdU32 r with
    | none => none
    | some (msize, r) =>
      match rdVersion r with
      | none => none
      | some (v, r) => some (.Version tag msize v, r)
  else if ty = 102 then
    match rdU32 r with
    | none => none
    | some (afid, r) =>
    match rdStr r with
    | none => none
    | some (uname, r) =>
    match rdStr r with
    | none => none
    | some (aname, r) =>
    match rdU32 r with
    | none => none
    | some (nuname, r) => some (.Auth tag afid uname aname nuname, r)
  else if ty = 104 then
    match rdU32 r with
    | none => none
    | some (fid, r) =>
    match rdU32 r with
    | none => none
    | some (afid, r) =>
    match rdStr r with
    | none => none
    | some (uname, r) =>
    match rdStr r with
    | none => none
    | some (aname, r) =>
    match rdU32 r with
    | none => none
    | some (nuname, r) => some (.Attach tag fid afid uname aname nuname, r)
  else if ty = 108 then
    match rdU16 r with
    | none => none
    | some (oldtag, r) => some (.Flush tag oldtag, r)
  else if ty = 110 then
    match rdU32 r with
    | none => none
    | some (fid, r) =>
    match rdU32 r with
    | none => none
    | some (newfid, r) =>
    match rdList rdStr r with
    | none => none
    | some (wnames, r) => some (.Walk tag fid newfid wnames, r)
  else if ty = 112 then
    match rdU32 r with
    | none => none
    | some (fid, r) =>
    match rdU8 r with
    | none => none
    | some (mode, r) => some (.Open tag fid mode, r)
  else if ty = 114 then
    match rdU32 r with
    | none => none
    | some (fid, r) =>
    match rdStr r with
    | none => none
    | some (name, r) =>
    match rdU32 r with
    | none => none
    | some (perm, r) =>
    match rdU8 r with
    | none => none
    | some (mode, r) =>
    match rdStr r with
    | none => none
    | some (ext, r) => some (.Create tag fid name perm mode ext, r)
  else if ty = 116 then
    match rdU32 r with
    | none => none
    | some (fid, r) =>
    match rdU64 r with
    | none => none
    | some (offset, r) =>
    match rdU32 r with
    | none => none
    | some (count, r) => some (.Read tag fid offset count, r)
  else if ty = 118 then
    match rdU32 r with
    | none => none
    | some (fid, r) =>
    match rdU64 r with
    | none => none
    | some (offset, r) =>
    match rdU32 r with
    | none => none
    | some (size, r) =>
    match readExact size r with
    | none => none
    | some (data, r) => some (.Write tag fid offset data, r)
  else if ty = 120 then
    match rdU32 r with
    | none => none
    | some (fid, r) => some (.Clunk tag fid, r)
  else if ty = 122 then
    match rdU32 r with
    | none => none
    | some (fid, r) => some (.Remove tag fid, r)
  else if ty = 124 then
    match rdU32 r with
    | none => none
    | some (fid, r) => some (.Stat tag fid, r)
  else if ty = 126 then
    match rdU32 r with
    | none => none
    | some (fid, r) =>
    match rdU16 r with
    | none => none
    | some (size, r) =>
    match readExact size r with
    | none => none
    | some (buf, r) =>
      -- the stat is hydrated from the extracted sub-buffer
      match rdStat buf with
      | none => none
      | some (stat, _) => some (.WStat tag fid stat, r)
  else
    -- `Cursor::remaining_slice`: the whole rest of the buffer
    some (.Unknown ty tag r, [])

/-- The T opcodes the decoder recognizes. -/
def knownTOpcodes : List Nat := [100, 102, 104, 108, 110, 112, 114, 116, 118, 120, 122, 124, 126]

/-- Well-formedness of a `T` value: every numeric field within the bit
width of its Rust type, every string valid UTF-8, every `Version`,
`Qid` and `Stat` well-formed, and `Unknown` only for type bytes the
decoder does not recognize. -/
def T.wf : T → Prop
  | .Unknown ty tag _ => ty < 256 ∧ ty ∉ knownTOpcodes ∧ tag < 256 ^ 2
  | .Version tag msize version =>
    tag < 256 ^ 2 ∧ msize < 256 ^ 4 ∧ version.wf
  | .Auth tag afid uname aname nuname =>
    tag < 256 ^ 2 ∧ afid < 256 ^ 4 ∧ utf8Valid uname = true ∧
      utf8Valid aname = true ∧ nuname < 256 ^ 4
  | .Attach tag fid afid uname aname nuname =>
    tag < 256 ^ 2 ∧ fid < 256 ^ 4 ∧ afid < 256 ^ 4 ∧
      utf8Valid uname = true ∧ utf8Valid aname = true ∧ nuname < 256 ^ 4
  | .Flush tag oldtag => tag < 256 ^ 2 ∧ oldtag < 256 ^ 2
  | .Walk tag fid newfid wnames =>
    tag < 256 ^ 2 ∧ fid < 256 ^ 4 ∧ newfid < 256 ^ 4 ∧
      ∀ w ∈ wnames, utf8Valid w = true
  | .Open tag fid mode => tag < 256 ^ 2 ∧ fid < 256 ^ 4 ∧ mode < 256
  | .Create tag fid name perm mode extension =>
    tag < 256 ^ 2 ∧ fid < 256 ^ 4 ∧ utf8Valid name = true ∧
      perm < 256 ^ 4 ∧ mode < 256 ∧ utf8Valid extension = true
  | .Read tag fid offset count =>
    tag < 256 ^ 2 ∧ fid < 256 ^ 4 ∧ offset < 256 ^ 8 ∧ count < 256 ^ 4
  | .Write tag fid offset _ =>
    tag < 256 ^ 2 ∧ fid < 256 ^ 4 ∧ offset < 256 ^ 8
  | .Clunk tag fid => tag < 256 ^ 2 ∧ fid < 256 ^ 4
  | .Remove tag fid => tag < 256 ^ 2 ∧ fid < 256 ^ 4
  | .Stat tag fid => tag < 256 ^ 2 ∧ fid < 256 ^ 4
  | .WStat tag fid stat => tag < 256 ^ 2 ∧ fid < 256 ^ 4 ∧ stat.wf

/-! ### R messages (`src/raw/messages_r.rs`) -/

/-- Server-to-client messages (9P2000.u). -/
inductive R
  | Unknown (ty : Nat) (tag : Nat) (buf : Bytes)
  | Version (tag : Nat) (msize : Nat) (version : Version)
  | Auth (tag : Nat) (aqid : Qid)
  | Attach (tag : Nat) (qid : Qid)
  | Error (tag : Nat) (ename : Bytes) (errno : Nat)
  | Flush (tag : Nat)
  | Walk (tag : Nat) (qids : List Qid)
  | Open (tag : Nat) (qid : Qid) (iounit : Nat)
  | Create (tag : Nat) (qid : Qid) (iounit : Nat)
  | Read (tag : Nat) (data : Bytes)
  | Write (tag : Nat) (count : Nat)
  | Clunk (tag : Nat)
  | Remove (tag : Nat)
  | Stat (tag : Nat) (stat : Stat)
  | WStat (tag : Nat)
deriving DecidableEq, Repr

/-- `R::dehydrate`. -/
def deR : R → Option Bytes
  | .Version tag msize version => do
    let v ← deVersion version
    pure (deU8 101 ++ deU16 tag ++ deU32 msize ++ v)
  | .Auth tag aqid =>
    pure (deU8 103 ++ deU16 tag ++ deQid aqid)
  | .Attach tag qid =>
    pure (deU8 105 ++ deU16 tag ++ deQid qid)
  | .Error tag ename errno => do
    let e ← deStr ename
    pure (deU8 107 ++ deU16 tag ++ e ++ deU32 errno)
  | .Flush tag =>
    pure (deU8 109 ++ deU16 tag)
  | .Walk tag qids => do
    let qs ← deList (fun q => some (deQid q)) qids
    pure (deU8 111 ++ deU16 tag ++ qs)
  | .Open tag qid iounit =>
    pure (deU8 113 ++ deU16 tag ++ deQid qid ++ deU32 iounit)
  | .Create tag qid iounit =>
    pure (deU8 115 ++ deU16 tag ++ deQid qid ++ deU32 iounit)
  | .Read tag data =>
    -- manual u32-count framing; fails TooLong when the length exceeds u32
    if data.length < 256 ^ 4 then
      pure (deU8 117 ++ deU16 tag ++ deU32 data.length ++ data)
    else none
  | .Write tag n =>
    pure (deU8 119 ++ deU16 tag ++ deU32 n)
  | .Clunk tag =>
    pure (deU8 121 ++ deU16 tag)
  | .Remove tag =>
    pure (deU8 123 ++ deU16 tag)
  | .Stat tag stat => do
    -- the stat is serialized to a scratch buffer and wrapped in a second
    -- u16 size prefix ("see bugs in stat(9P)")
    let sb ← deStat stat
    if sb.length < 256 ^ 2 then
      pure (deU8 125 ++ deU16 tag ++ deU16 sb.length ++ sb)
    else none
  | .WStat tag =>
    pure (deU8 127 ++ deU16 tag)
  | .Unknown ty tag buf =>
    pure (deU8 ty ++ deU16 tag ++ buf)

/-- `R::hydrate`. -/
def rdR (bs : Bytes) : Option (R × Bytes) :=
  match rdU8 bs with
  | none => none
  | some (ty, r) =>
  match rdU16 r with
  | none => none
  | some (tag, r) =>
  if ty = 101 then
    match rdU32 r with
    | none => none
    | some (msize, r) =>
      match rdVersion r with
      | none => none
      | some (v, r) => some (.Version tag msize v, r)
  else if ty = 103 then
    match rdQid r with
    | none => none
    | some (q, r) => some (.Auth tag q, r)
  else if ty = 105 then
    match rdQid r with
    | none => none
    | some (q, r) => some (.Attach tag q, r)
  else if ty = 107 then
    match rdStr r with
    | none => none
    | some (ename, r) =>
      match rdU32 r with
      | none => none
      | some (errno, r) => some (.Error tag ename errno, r)
  else if ty = 109 then
    some (.Flush tag, r)
  else if ty = 111 then
    match rdList rdQid r with
    | none => none
    | some (qids, r) => some (.Walk tag qids, r)
  else if ty = 113 then
    match rdQid r with
    | none => none
    | some (q, r) =>
      match rdU32 r with
      | none => none
      | some (iounit, r) => some (.Open tag q iounit, r)
  else if ty = 115 then
    match rdQid r with
    | none => none
    | some (q, r) =>
      match rdU32 r with
      | none => none
      | some (iounit, r) => some (.Create tag q iounit, r)
  else if ty = 117 then
    match rdU32 r with
    | none => none
    | some (size, r) =>
      match readExact size r with
      | none => none
      | some (data, r) => some (.Read tag data, r)
  else if ty = 119 then
    match rdU32 r with
    | none => none
    | some (n, r) => some (.Write tag n, r)
  else if ty = 121 then
    some (.Clunk tag, r)
  else if ty = 123 then
    some (.Remove tag, r)
  else if ty = 125 then
    match rdU16 r with
    | none => none
    | some (size, r) =>
    match readExact size r with
    | none => none
    | some (buf, r) =>
      -- the stat is hydrated from the extracted sub-buffer
      match rdStat buf with
      | none => none
      | some (stat, _) => some (.Stat tag stat, r)
  else if ty = 127 then
    some (.WStat tag, r)
  else
    -- `Cursor::remaining_slice`: the whole rest of the buffer
    some (.Unknown ty tag r, [])

/-- The R opcodes the decoder recognizes. -/
def knownROpcodes : List Nat := [101, 103, 105, 107, 109, 111, 113, 115, 117, 119, 121, 123, 125, 127]

/-- Well-formedness of an `R` value, in the same sense as `T.wf`. -/
def R.wf : R → Prop
  | .Unknown ty tag _ => ty < 256 ∧ ty ∉ knownROpcodes ∧ tag < 256 ^ 2
  | .Version tag msize version =>
    tag < 256 ^ 2 ∧ msize < 256 ^ 4 ∧ version.wf
  | .Auth tag aqid => tag < 256 ^ 2 ∧ aqid.wf
  | .Attach tag qid => tag < 256 ^ 2 ∧ qid.wf
  | .Error tag ename errno =>
    tag < 256 ^ 2 ∧ utf8Valid ename = true ∧ errno < 256 ^ 4
  | .Flush tag => tag < 256 ^ 2
  | .Walk tag qids => tag < 256 ^ 2 ∧ ∀ q ∈ qids, q.wf
  | .Open tag qid iounit => tag < 256 ^ 2 ∧ qid.wf ∧ iounit < 256 ^ 4
  | .Create tag qid iounit => tag < 256 ^ 2 ∧ qid.wf ∧ iounit < 256 ^ 4
  | .Read tag _ => tag < 256 ^ 2
  | .Write tag n => tag < 256 ^ 2 ∧ n < 256 ^ 4
  | .Clunk tag => tag < 256 ^ 2
  | .Remove tag => tag < 256 ^ 2
  | .Stat tag stat => tag < 256 ^ 2 ∧ stat.wf
  | .WStat tag => tag < 256 ^ 2

/-! ### Server state (`src/server/state.rs`, `src/server/traits.rs`,
`src/server/mod.rs`)

Hash maps keyed by fids/tags are modelled as association lists; the
state-table methods only ever insert a key after checking it is absent,
so first-match lookup agrees with `HashMap` semantics. -/

/-- ASCII string literal helper (all strings the server emits are ASCII). -/
def ascii (s : String) : Bytes := s.data.map Char.toNat

/-- `HashMap::contains_key`. -/
def alContains {κ β : Type} [BEq κ] (k : κ) (l : List (κ × β)) : Bool :=
  l.any (fun p => p.1 == k)

/-- `HashMap::get`. -/
def alGet {κ β : Type} [BEq κ] (k : κ) (l : List (κ × β)) : Option β :=
  (l.find? (fun p => p.1 == k)).map Prod.snd

/-- `HashMap::remove` (drop the entry for `k`, if any). -/
def alErase {κ β : Type} [BEq κ] (k : κ) (l : List (κ × β)) : List (κ × β) :=
  l.eraseP (fun p => p.1 == k)

/-- In-place update of the entry for `k` (the `get_mut` write-back). -/
def alSet {κ β : Type} [BEq κ] (k : κ) (v : β) (l : List (κ × β)) :
    List (κ × β) :=
  l.map (fun p => if p.1 == k then (k, v) else p)

/-- `FileError(errno, ename)` (`src/server/traits.rs`). -/
structure FileError where
  errno : Nat
  ename : Bytes
deriving DecidableEq, Repr

/-- `FileHandlesError` (`src/server/state.rs`). -/
inductive FileHandlesError
  | FidAlreadyExists
  | NoSuchFid
deriving DecidableEq, Repr

/-- `RequestsError` (`src/server/state.rs`). -/
inductive RequestsError
  | TagAlreadyExists
  | NoSuchTag
deriving DecidableEq, Repr

/-- `ServerError` (`src/server/mod.rs`). The payloads of the
`IoError`/`TError`/`RError` variants are omitted: they are never
produced by the dispatch paths modelled here. -/
inductive ServerError
  | FailedToNegotiate
  | NoSuchFilesystem
  | IoError
  | TError
  | RError
  | RequestsError (e : RequestsError)
  | FileHandlesError (e : FileHandlesError)
  | FileError (e : FileError)
deriving DecidableEq, Repr

/-- `format!("{err:?}")` for the server errors the Ready loop can see. -/
def dbgServerError : ServerError → Bytes
  | .FailedToNegotiate => ascii "FailedToNegotiate"
  | .NoSuchFilesystem => ascii "NoSuchFilesystem"
  | .IoError => ascii "IoError"
  | .TError => ascii "TError"
  | .RError => ascii "RError"
  | .RequestsError .TagAlreadyExists => ascii "RequestsError(TagAlreadyExists)"
  | .RequestsError .NoSuchTag => ascii "RequestsError(NoSuchTag)"
  | .FileHandlesError .FidAlreadyExists =>
    ascii "FileHandlesError(FidAlreadyExists)"
  | .FileHandlesError .NoSuchFid => ascii "FileHandlesError(NoSuchFid)"
  | .FileError fe => ascii "FileError(FileError(" ++ deU32 fe.errno ++
    fe.ename ++ ascii "))"

/-- `Session { uname, aname }` (`src/server/state.rs`). -/
structure Session where
  uname : Bytes
  aname : Bytes
deriving DecidableEq, Repr

/-- `FileHandle { session, file, of }` (`src/server/state.rs`). -/
structure FileHandle (F OF : Type) where
  session : Session
  file : F
  of : Option OF

/-- `FileHandles::insert`: fails `FidAlreadyExists` on a live fid,
otherwise stores `{session, file, of: None}`. -/
def fhInsert {F OF : Type} (fid : Nat) (session : Session) (file : F)
    (hs : List (Nat × FileHandle F OF)) :
    Except FileHandlesError (List (Nat × FileHandle F OF)) :=
  if alContains fid hs then .error .FidAlreadyExists
  else .ok ((fid, ⟨session, file, none⟩) :: hs)

/-- `FileHandles::remove`: the removed handle and the shrunk table, or
`NoSuchFid`. -/
def fhRemove {F OF : Type} (fid : Nat) (hs : List (Nat × FileHandle F OF)) :
    Except FileHandlesError (FileHandle F OF × List (Nat × FileHandle F OF)) :=
  match alGet fid hs with
  | none => .error .NoSuchFid
  | some fh => .ok (fh, alErase fid hs)

/-- `FileHandles::get` / `get_mut` (the write-back of a mutated handle is
`alSet`). -/
def fhGet {F OF : Type} (fid : Nat) (hs : List (Nat × FileHandle F OF)) :
    Except FileHandlesError (FileHandle F OF) :=
  match alGet fid hs with
  | none => .error .NoSuchFid
  | some fh => .ok fh

/-- `Requests::insert`: fails `TagAlreadyExists` on a live tag. -/
def reqInsert (tag : Nat) (t : T) (rs : List (Nat × T)) :
    Except RequestsError (List (Nat × T)) :=
  if alContains tag rs then .error .TagAlreadyExists
  else .ok ((tag, t) :: rs)

/-- `Requests::remove`: the stored request and the shrunk table, or
`NoSuchTag`. -/
def reqRemove (tag : Nat) (rs : List (Nat × T)) :
    Except RequestsError (T × List (Nat × T)) :=
  match alGet tag rs with
  | none => .error .NoSuchTag
  | some t => .ok (t, alErase tag rs)

/-- The back-end `File`/`OpenFile` capability set
(`src/server/traits.rs`), over abstract types `F` (a `File`) and `OF`
(an `OpenFile`). `&mut self` methods return the updated receiver; a
failing call is modelled as leaving its receiver unchanged. -/
structure FileOps (F OF : Type) where
  qid : F → Qid
  stat : F → Except FileError Stat
  wstat : F → Stat → Except FileError F
  walk : F → List Bytes → Except FileError (Option F × List F)
  unlink : F → Except FileError F
  create : F → (name : Bytes) → (perm : Nat) → (ty : FileType) →
    (mode : OpenMode) → (extension : Bytes) → Except FileError (F × F)
  openf : F → OpenMode → Except FileError (F × OF)
  iounit : OF → Nat
  readAt : OF → (bufLen : Nat) → (offset : Nat) →
    Except FileError (OF × Nat × Bytes)
  writeAt : OF → Bytes → (offset : Nat) → Except FileError (OF × Nat)

/-- The `Filesystem` capability (`src/server/traits.rs:109-121`): its
`attach` is declared with `aname` as the first parameter and `uname` as
the second. -/
structure Filesystem (F : Type) where
  attach : (aname : Bytes) → (uname : Bytes) → (nuname : Nat) →
    Except FileError F

/-- Per-connection mutable state reachable from `MessageContext`: the
fid table and the tag table. -/
structure ConnState (F OF : Type) where
  handles : List (Nat × FileHandle F OF)
  requests : List (Nat × T)

/-- `message_handler` (`src/server/message_handler.rs`), returning the
updated state together with the handler's `Result<R>`. -/
def messageHandler {F OF : Type} (ops : FileOps F OF)
    (fss : List (Bytes × Filesystem F)) (msize : Nat)
    (st : ConnState F OF) (t : T) : ConnState F OF × Except ServerError R :=
  match t with
  | .Version tag _ _ =>
    (st, .ok (.Error tag (ascii "EALREADY") 114))
  | .Auth tag _ _ _ _ =>
    (st, .ok (.Error tag (ascii "ECONNREFUSED") 111))
  | .Attach tag fid _afid uname aname nuname =>
    match alGet aname fss with
    | none => (st, .error .NoSuchFilesystem)
    | some fs =>
      -- NB: the call site is `fs.attach(&uname, &aname, nuname)` — the
      -- request's uname is passed in the parameter position the trait
      -- declares as `aname`, and vice versa.
      match fs.attach uname aname nuname with
      | .error e => (st, .error (.FileError e))
      | .ok file =>
        let qid := ops.qid file
        let session : Session := ⟨uname, aname⟩
        match fhInsert fid session file st.handles with
        | .error e => (st, .error (.FileHandlesError e))
        | .ok handles => ({ st with handles := handles }, .ok (.Attach tag qid))
  | .Flush tag oldtag =>
    -- remove oldtag if present (ignoring NoSuchTag), always RFlush
    match reqRemove oldtag st.requests with
    | .ok (_req, requests) => ({ st with requests := requests }, .ok (.Flush tag))
    | .error _ => (st, .ok (.Flush tag))
  | .Walk tag fid newfid path =>
    match fhGet fid st.handles with
    | .error e => (st, .error (.FileHandlesError e))
    | .ok handle =>
      let session := handle.session
      match ops.walk handle.file path with
      | .error e => (st, .error (.FileError e))
      | .ok (file, files) =>
        let qids := files.map ops.qid
        match file with
        | none =>
          if files.length = path.length then
            (st, .ok (.Error tag (ascii "ENOENT") 2))
          else
            (st, .ok (.Walk tag qids))
        | some file =>
          if files.length ≠ path.length then
            (st, .ok (.Error tag (ascii "EINVAL") 22))
          else
            match fhInsert newfid session file st.handles with
            | .error e => (st, .error (.FileHandlesError e))
            | .ok handles =>
              ({ st with handles := handles }, .ok (.Walk tag qids))
  | .Open tag fid mode =>
    match fhGet fid st.handles with
    | .error e => (st, .error (.FileHandlesError e))
    | .ok handle =>
      match ops.openf handle.file mode with
      | .error e => (st, .error (.FileError e))
      | .ok (file, of) =>
        let iounit := ops.iounit of
        let qid := ops.qid file
        ({ st with handles := alSet fid ⟨handle.session, file, some of⟩ st.handles },
          .ok (.Open tag qid iounit))
  | .Create tag fid name perm mode extension =>
    match fhGet fid st.handles with
    | .error e => (st, .error (.FileHandlesError e))
    | .ok handle =>
      -- `let mode: OpenMode = mode.into()` is the identity on the raw u8
      let ty : FileType := u32ToFileType perm
      let perm : Nat := perm &&& 0o777
      match ops.create handle.file name perm ty mode extension with
      | .error e => (st, .error (.FileError e))
      | .ok (parent, f) =>
        -- `create(&mut self)` has mutated the fid's file in place
        let handles := alSet fid ⟨handle.session, parent, handle.of⟩ st.handles
        match ops.openf f mode with
        | .error e =>
          ({ st with handles := handles }, .error (.FileError e))
        | .ok (f, of) =>
          ({ st with handles := alSet fid ⟨handle.session, parent, some of⟩ st.handles },
            .ok (.Create tag (ops.qid f) 0))
  | .Read tag fid offset size =>
    match fhGet fid st.handles with
    | .error e => (st, .error (.FileHandlesError e))
    | .ok handle =>
      -- `vec![0u8; size.min(msize)]`
      let bufLen := min size msize
      match handle.of with
      | some of =>
        match ops.readAt of bufLen offset with
        | .error e => (st, .error (.FileError e))
        | .ok (of, n, written) =>
          -- the back-end wrote `written` into the `bufLen`-byte buffer,
          -- then `buf.resize(n, 0)`
          let buf := written.take bufLen ++
            List.replicate (bufLen - written.length) 0
          let data := buf.take n ++ List.replicate (n - bufLen) 0
          ({ st with handles := alSet fid ⟨handle.session, handle.file, some of⟩ st.handles },
            .ok (.Read tag data))
      | none => (st, .ok (.Error tag (ascii "EBADFD") 77))
  | .Write tag fid offset data =>
    match fhGet fid st.handles with
    | .error e => (st, .error (.FileHandlesError e))
    | .ok handle =>
      match handle.of with
      | some of =>
        match ops.writeAt of data offset with
        | .error e => (st, .error (.FileError e))
        | .ok (of, n) =>
          ({ st with handles := alSet fid ⟨handle.session, handle.file, some of⟩ st.handles },
            .ok (.Write tag n))
      | none => (st, .ok (.Error tag (ascii "EBADFD") 77))
  | .Clunk tag fid =>
    match fhRemove fid st.handles with
    | .error e => (st, .error (.FileHandlesError e))
    | .ok (_handle, handles) =>
      ({ st with handles := handles }, .ok (.Clunk tag))
  | .Remove tag fid =>
    match fhRemove fid st.handles with
    | .error e => (st, .error (.FileHandlesError e))
    | .ok (handle, handles) =>
      -- the fid is released whether or not unlink succeeds
      match ops.unlink handle.file with
      | .error e => ({ st with handles := handles }, .error (.FileError e))
      | .ok _ => ({ st with handles := handles }, .ok (.Remove tag))
  | .Stat tag fid =>
    match fhGet fid st.handles with
    | .error e => (st, .error (.FileHandlesError e))
    | .ok handle =>
      match ops.stat handle.file with
      | .error e => (st, .error (.FileError e))
      | .ok s => (st, .ok (.Stat tag s))
  | .WStat tag fid stat =>
    match fhGet fid st.handles with
    | .error e => (st, .error (.FileHandlesError e))
    | .ok handle =>
      match ops.wstat handle.file stat with
      | .error e => (st, .error (.FileError e))
      | .ok file =>
        ({ st with handles := alSet fid ⟨handle.session, file, handle.of⟩ st.handles },
          .ok (.WStat tag))
  | .Unknown ty tag _ =>
    let _ := ty
    (st, .ok (.Error tag (ascii "ENOSYS") 38))

/-- One iteration of the Ready loop of `connection_handler`
(`src/server/connection_handler.rs:117-156`): insert the tag (dropping
the message silently on collision), dispatch, map errors to `RError`,
then remove the tag — sending the reply only if the tag is still
present. Returns the new state and the messages sent on the wire. -/
def readyStep {F OF : Type} (ops : FileOps F OF)
    (fss : List (Bytes × Filesystem F)) (msize : Nat)
    (st : ConnState F OF) (t : T) : ConnState F OF × List R :=
  let tag := t.tag
  match reqInsert tag t st.requests with
  | .error _ => (st, [])
  | .ok requests =>
    let st := { st with requests := requests }
    let res := messageHandler ops fss msize st t
    let st := res.1
    let reply := match res.2 with
      | .ok r => r
      | .error (.FileError fe) => .Error tag fe.ename fe.errno
      | .error e => .Error tag (dbgServerError e) 0xFFFFFFFF
    match reqRemove tag st.requests with
    | .ok (_, requests) => ({ st with requests := requests }, [reply])
    | .error _ => (st, [])

/-! ### Handshake (`src/server/connection_handler.rs:38-76`) -/

/-- `format!("{e:?}")` for a `VersionError`. -/
def dbgVersionError : VersionError → Bytes
  | .MismatchedId => ascii "MismatchedId"
  | .MismatchedVariant => ascii "MismatchedVariant"

/-- What the handshake loop does after one message. -/
inductive HsOutcome
  | handshaking
  | ready (msize : Nat) (version : Version)
  | closed
deriving DecidableEq, Repr

/-- Result of one handshake-loop iteration: the reader's and writer's
msizes, the replies sent, and the loop outcome. -/
structure HsStep where
  readerMsize : Nat
  writerMsize : Nat
  sent : List R
  outcome : HsOutcome

/-- One iteration of `handshake`: a `TVersion` either completes the
negotiation (set both msizes, reply `RVersion`, go Ready) or fails it
(reply `RError`, terminate); anything else is dropped with a warning
and the loop continues. -/
def handshake1 (smsize : Nat) (sversion : Version) (rmsize wmsize : Nat)
    (t : T) : HsStep :=
  match t with
  | .Version tag clientMsize clientVersion =>
    let connMsize := min smsize clientMsize
    match sversion.tryNegotiate clientVersion with
    | .ok connVersion =>
      ⟨connMsize, connMsize, [.Version tag connMsize connVersion],
        .ready connMsize connVersion⟩
    | .error e =>
      ⟨rmsize, wmsize, [.Error tag (dbgVersionError e) 0xFFFFFFFF], .closed⟩
  | _ => ⟨rmsize, wmsize, [], .handshaking⟩

/-! ### Framed reader and writer (`src/server/aio.rs`) -/

/-- Writer error (`TooLong`, or a dehydrate failure). -/
inductive WrErr
  | TooLong
  | EncodeErr
deriving DecidableEq, Repr

/-- `send` of the `async_writer!` macro expansion, generic over the
message codec (both `RWriter` and `TWriter` instantiate it): serialize,
let `size = position + 4`, fail `TooLong` before writing anything when
`size > msize`, else write the length prefix and the payload. Returns
the bytes written to the stream and the error, if any. -/
def sendWith {α : Type} (de : α → Option Bytes) (msize : Nat) (msg : α) :
    Bytes × Option WrErr :=
  match de msg with
  | none => ([], some .EncodeErr)
  | some payload =>
    let size := payload.length + 4
    if size > msize then ([], some .TooLong)
    else (deU32 size ++ payload, none)

/-- Outcome of one `next` call of the `async_reader!` expansion. -/
inductive RdOut (α : Type)
  | TooLong
  | IoErr
  | DecodeErr
  | Ok (a : α)
deriving DecidableEq, Repr

/-- `next` of the `async_reader!` expansion, generic over the message
codec: read `size:u32`; fail `TooLong` if `size > msize`; otherwise
allocate `size - 4` bytes and read the body. The subtraction is the
source's unchecked `usize` arithmetic: for `size < 4` it underflows and
the call terminates abnormally instead of returning any error value —
modelled as `none`. Returns the outcome and the unconsumed stream. -/
def nextWith {α : Type} (rd : Bytes → Option (α × Bytes)) (msize : Nat)
    (stream : Bytes) : Option (RdOut α × Bytes) :=
  match rdU32 stream with
  | none => some (.IoErr, stream)
  | some (size, rest) =>
    if size > msize then some (.TooLong, rest)
    else if size < 4 then none
    else
      match readExact (size - 4) rest with
      | none => some (.IoErr, rest)
      | some (body, rest) =>
        match rd body with
        | none => some (.DecodeErr, rest)
        | some (t, _) => some (.Ok t, rest)

/-! ### Concrete back-end fixtures used to instantiate the generic
dispatcher theorems (the back-ends themselves are external
collaborators of the library). -/

/-- A trivial back-end over unit files whose calls all fail. -/
def unitOps : FileOps Unit Unit where
  qid _ := ⟨.File, 0, 0⟩
  stat _ := .error ⟨0, []⟩
  wstat _ _ := .error ⟨0, []⟩
  walk _ _ := .error ⟨0, []⟩
  unlink _ := .error ⟨0, []⟩
  create _ _ _ _ _ _ := .error ⟨0, []⟩
  openf _ _ := .error ⟨0, []⟩
  iounit _ := 0
  readAt _ _ _ := .error ⟨0, []⟩
  writeAt _ _ _ := .error ⟨0, []⟩

/-- A back-end whose `walk` succeeds, reporting one traversed
directory. -/
def walkOps : FileOps Unit Unit :=
  { unitOps with
    qid := fun _ => ⟨.Dir, 0, 7⟩
    walk := fun _ _ => .ok (some (), [()]) }

/-- A back-end whose `create` and `open` succeed. -/
def createOps : FileOps Unit Unit :=
  { unitOps with
    qid := fun _ => ⟨.File, 0, 2⟩
    create := fun _ _ _ _ _ _ => .ok ((), ())
    openf := fun _ _ => .ok ((), ()) }

/-- A probe filesystem over `Bytes`-valued files: `attach` returns the
value passed in its first declared parameter (`aname`), so the stored
root file records which request field reached that position. -/
def probeFs : Filesystem Bytes :=
  ⟨fun anameArg _unameArg _nunameArg => .ok anameArg⟩

/-- File operations for the probe filesystem's `Bytes` files. -/
def probeOps : FileOps Bytes Unit where
  qid _ := ⟨.Dir, 0, 1⟩
  stat _ := .error ⟨0, []⟩
  wstat _ _ := .error ⟨0, []⟩
  walk _ _ := .error ⟨0, []⟩
  unlink _ := .error ⟨0, []⟩
  create _ _ _ _ _ _ := .error ⟨0, []⟩
  openf _ _ := .error ⟨0, []⟩
  iounit _ := 0
  readAt _ _ _ := .error ⟨0, []⟩
  writeAt _ _ _ := .error ⟨0, []⟩

instance : DecidablePred T.wf := fun t => by
  cases t <;> (dsimp only [T.wf]; infer_instance)

instance : DecidablePred R.wf := fun m => by
  cases m <;> (dsimp only [R.wf]; infer_instance)

/-! ## Theorems -/

theorem rdU8_deU8 (v : Nat) (h : v < 256) (rest : Bytes) :
    rdU8 (deU8 v ++ rest) = some (v, rest) := by
  simp [deU8, rdU8, Nat.mod_eq_of_lt h]

theorem rdU16_deU16 (v : Nat) (h : v < 256 ^ 2) (rest : Bytes) :
    rdU16 (deU16 v ++ rest) = some (v, rest) := by
  simp only [deU16, rdU16, List.cons_append, List.nil_append]
  congr 2
  omega

theorem rdU32_deU32 (v : Nat) (h : v < 256 ^ 4) (rest : Bytes) :
    rdU32 (deU32 v ++ rest) = some (v, rest) := by
  simp only [deU32, rdU32, List.cons_append, List.nil_append]
  congr 2
  simp only [Nat.pow_succ]
  omega

theorem rdU64_deU64 (v : Nat) (h : v < 256 ^ 8) (rest : Bytes) :
    rdU64 (deU64 v ++ rest) = some (v, rest) := by
  simp only [deU64, rdU64, List.cons_append, List.nil_append]
  congr 2
  simp only [Nat.pow_succ]
  omega

theorem rdBytes_deBytes (l : Bytes) (bs : Bytes) (h : deBytes l = some bs)
    (rest : Bytes) : rdBytes (bs ++ rest) = some (l, rest) := by
  unfold deBytes at h
  split at h
  · next hlen =>
    cases h
    rw [rdBytes, List.append_assoc, rdU16_deU16 _ hlen]
    simp [readExact, List.take_append_of_le_length, List.drop_append_of_le_length]
  · exact absurd h (by simp)

theorem rdStr_deStr (s : Bytes) (hu : utf8Valid s = true) (bs : Bytes)
    (h : deStr s = some bs) (rest : Bytes) :
    rdStr (bs ++ rest) = some (s, rest) := by
  rw [rdStr, rdBytes_deBytes s bs h]
  simp [hu]

/-- If every element of `l` round-trips through `de`/`rd`, so does the
encoded sequence. -/
theorem rdList_deList {α : Type} (de : α → Option Bytes)
    (rd : Bytes → Option (α × Bytes)) (l : List α)
    (hel : ∀ a ∈ l, ∀ b, de a = some b → ∀ r, rd (b ++ r) = some (a, r))
    (bs : Bytes) (h : deList de l = some bs) (rest : Bytes) :
    rdList rd (bs ++ rest) = some (l, rest) := by
  unfold deList at h
  split at h
  · next hlen =>
    rw [Option.map_eq_some'] at h
    obtain ⟨body, hbody, hb⟩ := h
    subst hb
    rw [rdList, List.append_assoc, rdU16_deU16 _ hlen]
    -- reduce to a statement about `rdCount`
    suffices hgen : ∀ (l : List α) (body : Bytes),
        (∀ a ∈ l, ∀ b, de a = some b → ∀ r, rd (b ++ r) = some (a, r)) →
        (l.foldr (fun a acc => do
          let b ← de a
          let r ← acc
          pure (b ++ r)) (some [])) = some body →
        ∀ rest, rdCount rd l.length (body ++ rest) = some (l, rest) by
      exact hgen l body hel hbody rest
    intro l
    induction l with
    | nil =>
      intro body _ hfold rest
      simp only [List.foldr_nil, Option.some.injEq] at hfold
      subst hfold
      simp [rdCount]
    | cons a as ih =>
      intro body hel' hfold rest
      simp only [List.foldr_cons, Option.bind_eq_bind, Option.bind_eq_some,
        Option.some.injEq, Option.pure_def] at hfold
      obtain ⟨b, hb, tail, htail, hcat⟩ := hfold
      subst hcat
      rw [List.length_cons, rdCount, List.append_assoc,
        hel' a (by simp) b hb]
      dsimp only
      rw [ih tail (fun x hx => hel' x (List.mem_cons_of_mem a hx)) htail rest]
  · exact absurd h (by simp)

theorem rdFileType_deFileType (ft : FileType) (h : ft.wfByte) (rest : Bytes) :
    rdFileType (deFileType ft ++ rest) = some (ft, rest) := by
  rw [deFileType, rdFileType, rdU8_deU8 _ h.1]
  simp [h.2]

theorem rdQid_deQid (q : Qid) (h : q.wf) (rest : Bytes) :
    rdQid (deQid q ++ rest) = some (q, rest) := by
  rw [deQid, rdQid, List.append_assoc, List.append_assoc,
    rdFileType_deFileType _ h.1]
  dsimp only
  rw [rdU32_deU32 _ h.2.1]
  dsimp only
  rw [rdU64_deU64 _ h.2.2]

theorem parseVersion_format (v : Version) (h : 46 ∉ v.id) :
    parseVersion v.format = v := by
  obtain ⟨id, variant⟩ := v
  simp only [Version.format]
  induction id with
  | nil =>
    cases variant <;> simp [parseVersion]
  | cons b r ih =>
    simp only [List.mem_cons, not_or] at h
    cases variant <;>
      simp_all [parseVersion, Version.format, Ne.symm h.1]

theorem rdVersion_deVersion (v : Version) (hwf : v.wf) (bs : Bytes)
    (h : deVersion v = some bs) (rest : Bytes) :
    rdVersion (bs ++ rest) = some (v, rest) := by
  rw [rdVersion, rdStr_deStr v.format hwf.2 bs h]
  simp [parseVersion_format v hwf.1]

theorem rdStat_body (s : Stat) (hwf : s.wf) (body : Bytes)
    (h : deStatBody s = some body) (sz : Nat) (hsz : sz < 256 ^ 2)
    (rest : Bytes) :
    rdStat (deU16 sz ++ (body ++ rest)) = some (s, rest) := by
  obtain ⟨h1, h2, h3, h4, h5, h6, h7, h8, h9, h10, h11, h12, h13, h14, h15⟩ := hwf
  simp only [deStatBody, Option.bind_eq_bind, Option.bind_eq_some,
    Option.some.injEq, Option.pure_def] at h
  obtain ⟨name, hname, uid, huid, gid, hgid, muid, hmuid, ext, hext, hb⟩ := h
  subst hb
  rw [rdStat, rdU16_deU16 sz hsz]
  dsimp only
  simp only [List.append_assoc]
  rw [rdU16_deU16 _ h1]; dsimp only
  rw [rdU32_deU32 _ h2]; dsimp only
  rw [rdQid_deQid _ h3]; dsimp only
  rw [rdU32_deU32 _ h4]; dsimp only
  rw [rdU32_deU32 _ h5]; dsimp only
  rw [rdU32_deU32 _ h6]; dsimp only
  rw [rdU64_deU64 _ h7]; dsimp only
  rw [rdStr_deStr _ h8 _ hname]; dsimp only
  rw [rdStr_deStr _ h9 _ huid]; dsimp only
  rw [rdStr_deStr _ h10 _ hgid]; dsimp only
  rw [rdStr_deStr _ h11 _ hmuid]; dsimp only
  rw [rdStr_deStr _ h12 _ hext]; dsimp only
  rw [rdU32_deU32 _ h13]; dsimp only
  rw [rdU32_deU32 _ h14]; dsimp only
  rw [rdU32_deU32 _ h15]

theorem rdStat_deStat (s : Stat) (hwf : s.wf) (bs : Bytes)
    (h : deStat s = some bs) (rest : Bytes) :
    rdStat (bs ++ rest) = some (s, rest) := by
  simp only [deStat, Option.bind_eq_bind, Option.bind_eq_some] at h
  obtain ⟨body, hbody, hbs⟩ := h
  unfold deBytes at hbs
  split at hbs
  · next hlen =>
    cases hbs
    rw [List.append_assoc]
    exact rdStat_body s hwf body hbody _ hlen rest
  · exact absurd hbs (by simp)

/-! No-trailing-bytes corollaries of the composition lemmas, for the
last field of a message payload. -/

theorem readExact_exact (l : Bytes) : readExact l.length l = some (l, []) := by
  simp [readExact]

theorem rdU8_deU8' (v : Nat) (h : v < 256) :
    rdU8 (deU8 v) = some (v, []) := by
  have := rdU8_deU8 v h []
  simpa using this

theorem rdU16_deU16' (v : Nat) (h : v < 256 ^ 2) :
    rdU16 (deU16 v) = some (v, []) := by
  have := rdU16_deU16 v h []
  simpa using this

theorem rdU32_deU32' (v : Nat) (h : v < 256 ^ 4) :
    rdU32 (deU32 v) = some (v, []) := by
  have := rdU32_deU32 v h []
  simpa using this

theorem rdU64_deU64' (v : Nat) (h : v < 256 ^ 8) :
    rdU64 (deU64 v) = some (v, []) := by
  have := rdU64_deU64 v h []
  simpa using this

theorem rdStr_deStr' (s : Bytes) (hu : utf8Valid s = true) (bs : Bytes)
    (h : deStr s = some bs) : rdStr bs = some (s, []) := by
  have := rdStr_deStr s hu bs h []
  simpa using this

theorem rdVersion_deVersion' (v : Version) (hwf : v.wf) (bs : Bytes)
    (h : deVersion v = some bs) : rdVersion bs = some (v, []) := by
  have := rdVersion_deVersion v hwf bs h []
  simpa using this

theorem rdList_deList' {α : Type} (de : α → Option Bytes)
    (rd : Bytes → Option (α × Bytes)) (l : List α)
    (hel : ∀ a ∈ l, ∀ b, de a = some b → ∀ r, rd (b ++ r) = some (a, r))
    (bs : Bytes) (h : deList de l = some bs) :
    rdList rd bs = some (l, []) := by
  have := rdList_deList de rd l hel bs h []
  simpa using this

theorem rdStat_deStat' (s : Stat) (hwf : s.wf) (bs : Bytes)
    (h : deStat s = some bs) : rdStat bs = some (s, []) := by
  have := rdStat_deStat s hwf bs h []
  simpa using this

/-- Hydrating exactly the bytes a well-formed `T` dehydrates to yields
the message back. -/
theorem rdT_deT (t : T) (hwf : t.wf) (bs : Bytes) (h : deT t = some bs) :
    rdT bs = some (t, []) := by
  cases t with
  | Unknown ty tag buf =>
    simp only [T.wf, knownTOpcodes, List.mem_cons, List.not_mem_nil,
      or_false, not_or] at hwf
    obtain ⟨hty, hne, htag⟩ := hwf
    simp only [deT, Option.pure_def, Option.some.injEq] at h
    subst h
    rw [rdT, List.append_assoc, rdU8_deU8 _ hty]
    dsimp only
    rw [rdU16_deU16 _ htag]
    dsimp only
    simp only [hne.1, hne.2.1, hne.2.2.1, hne.2.2.2.1, hne.2.2.2.2.1,
      hne.2.2.2.2.2.1, hne.2.2.2.2.2.2.1, hne.2.2.2.2.2.2.2.1,
      hne.2.2.2.2.2.2.2.2.1, hne.2.2.2.2.2.2.2.2.2.1,
      hne.2.2.2.2.2.2.2.2.2.2.1, hne.2.2.2.2.2.2.2.2.2.2.2.1,
      hne.2.2.2.2.2.2.2.2.2.2.2.2, if_false, reduceIte]
  | Version tag msize version =>
    obtain ⟨h1, h2, h3⟩ := hwf
    simp only [deT, Option.bind_eq_bind, Option.bind_eq_some,
      Option.some.injEq, Option.pure_def] at h
    obtain ⟨v, hv, hbs⟩ := h
    subst hbs
    simp only [List.append_assoc]
    rw [rdT, rdU8_deU8 _ (by norm_num)]
    dsimp only
    rw [rdU16_deU16 _ h1]
    dsimp only
    simp only [Nat.reduceEqDiff, reduceIte]
    rw [rdU32_deU32 _ h2]
    dsimp only
    rw [rdVersion_deVersion' _ h3 _ hv]
  | Auth tag afid uname aname nuname =>
    obtain ⟨h1, h2, h3, h4, h5⟩ := hwf
    simp only [deT, Option.bind_eq_bind, Option.bind_eq_some,
      Option.some.injEq, Option.pure_def] at h
    obtain ⟨u, hu, a, ha, hbs⟩ := h
    subst hbs
    simp only [List.append_assoc]
    rw [rdT, rdU8_deU8 _ (by norm_num)]
    dsimp only
    rw [rdU16_deU16 _ h1]
    dsimp only
    simp only [Nat.reduceEqDiff, reduceIte]
    rw [rdU32_deU32 _ h2]
    dsimp only
    rw [rdStr_deStr _ h3 _ hu]
    dsimp only
    rw [rdStr_deStr _ h4 _ ha]
    dsimp only
    rw [rdU32_deU32' _ h5]
  | Attach tag fid afid uname aname nuname =>
    obtain ⟨h1, h2, h3, h4, h5, h6⟩ := hwf
    simp only [deT, Option.bind_eq_bind, Option.bind_eq_some,
      Option.some.injEq, Option.pure_def] at h
    obtain ⟨u, hu, a, ha, hbs⟩ := h
    subst hbs
    simp only [List.append_assoc]
    rw [rdT, rdU8_deU8 _ (by norm_num)]
    dsimp only
    rw [rdU16_deU16 _ h1]
    dsimp only
    simp only [Nat.reduceEqDiff, reduceIte]
    rw [rdU32_deU32 _ h2]
    dsimp only
    rw [rdU32_deU32 _ h3]
    dsimp only
    rw [rdStr_deStr _ h4 _ hu]
    dsimp only
    rw [rdStr_deStr _ h5 _ ha]
    dsimp only
    rw [rdU32_deU32' _ h6]
  | Flush tag oldtag =>
    obtain ⟨h1, h2⟩ := hwf
    simp only [deT, Option.pure_def, Option.some.injEq] at h
    subst h
    simp only [List.append_assoc]
    rw [rdT, rdU8_deU8 _ (by norm_num)]
    dsimp only
    rw [rdU16_deU16 _ h1]
    dsimp only
    simp only [Nat.reduceEqDiff, reduceIte]
    rw [rdU16_deU16' _ h2]
  | Walk tag fid newfid wnames =>
    obtain ⟨h1, h2, h3, h4⟩ := hwf
    simp only [deT, Option.bind_eq_bind, Option.bind_eq_some,
      Option.some.injEq, Option.pure_def] at h
    obtain ⟨ws, hws, hbs⟩ := h
    subst hbs
    simp only [List.append_assoc]
    rw [rdT, rdU8_deU8 _ (by norm_num)]
    dsimp only
    rw [rdU16_deU16 _ h1]
    dsimp only
    simp only [Nat.reduceEqDiff, reduceIte]
    rw [rdU32_deU32 _ h2]
    dsimp only
    rw [rdU32_deU32 _ h3]
    dsimp only
    rw [rdList_deList' deStr rdStr wnames
      (fun w hw b hb r => rdStr_deStr w (h4 w hw) b hb r) ws hws]
  | Open tag fid mode =>
    obtain ⟨h1, h2, h3⟩ := hwf
    simp only [deT, Option.pure_def, Option.some.injEq] at h
    subst h
    simp only [List.append_assoc]
    rw [rdT, rdU8_deU8 _ (by norm_num)]
    dsimp only
    rw [rdU16_deU16 _ h1]
    dsimp only
    simp only [Nat.reduceEqDiff, reduceIte]
    rw [rdU32_deU32 _ h2]
    dsimp only
    rw [rdU8_deU8' _ h3]
  | Create tag fid name perm mode extension =>
    obtain ⟨h1, h2, h3, h4, h5, h6⟩ := hwf
    simp only [deT, Option.bind_eq_bind, Option.bind_eq_some,
      Option.some.injEq, Option.pure_def] at h
    obtain ⟨n, hn, e, he, hbs⟩ := h
    subst hbs
    simp only [List.append_assoc]
    rw [rdT, rdU8_deU8 _ (by norm_num)]
    dsimp only
    rw [rdU16_deU16 _ h1]
    dsimp only
    simp only [Nat.reduceEqDiff, reduceIte]
    rw [rdU32_deU32 _ h2]
    dsimp only
    rw [rdStr_deStr _ h3 _ hn]
    dsimp only
    rw [rdU32_deU32 _ h4]
    dsimp only
    rw [rdU8_deU8 _ h5]
    dsimp only
    rw [rdStr_deStr' _ h6 _ he]
  | Read tag fid offset count =>
    obtain ⟨h1, h2, h3, h4⟩ := hwf
    simp only [deT, Option.pure_def, Option.some.injEq] at h
    subst h
    simp only [List.append_assoc]
    rw [rdT, rdU8_deU8 _ (by norm_num)]
    dsimp only
    rw [rdU16_deU16 _ h1]
    dsimp only
    simp only [Nat.reduceEqDiff, reduceIte]
    rw [rdU32_deU32 _ h2]
    dsimp only
    rw [rdU64_deU64 _ h3]
    dsimp only
    rw [rdU32_deU32' _ h4]
  | Write tag fid offset data =>
    obtain ⟨h1, h2, h3⟩ := hwf
    rw [deT] at h
    split at h
    · next hlen =>
      simp only [Option.pure_def, Option.some.injEq] at h
      subst h
      simp only [List.append_assoc]
      rw [rdT, rdU8_deU8 _ (by norm_num)]
      dsimp only
      rw [rdU16_deU16 _ h1]
      dsimp only
      simp only [Nat.reduceEqDiff, reduceIte]
      rw [rdU32_deU32 _ h2]
      dsimp only
      rw [rdU64_deU64 _ h3]
      dsimp only
      rw [rdU32_deU32 _ hlen]
      dsimp only
      rw [readExact_exact]
    · exact absurd h (by simp)
  | Clunk tag fid =>
    obtain ⟨h1, h2⟩ := hwf
    simp only [deT, Option.pure_def, Option.some.injEq] at h
    subst h
    simp only [List.append_assoc]
    rw [rdT, rdU8_deU8 _ (by norm_num)]
    dsimp only
    rw [rdU16_deU16 _ h1]
    dsimp only
    simp only [Nat.reduceEqDiff, reduceIte]
    rw [rdU32_deU32' _ h2]
  | Remove tag fid =>
    obtain ⟨h1, h2⟩ := hwf
    simp only [deT, Option.pure_def, Option.some.injEq] at h
    subst h
    simp only [List.append_assoc]
    rw [rdT, rdU8_deU8 _ (by norm_num)]
    dsimp only
    rw [rdU16_deU16 _ h1]
    dsimp only
    simp only [Nat.reduceEqDiff, reduceIte]
    rw [rdU32_deU32' _ h2]
  | Stat tag fid =>
    obtain ⟨h1, h2⟩ := hwf
    simp only [deT, Option.pure_def, Option.some.injEq] at h
    subst h
    simp only [List.append_assoc]
    rw [rdT, rdU8_deU8 _ (by norm_num)]
    dsimp only
    rw [rdU16_deU16 _ h1]
    dsimp only
    simp only [Nat.reduceEqDiff, reduceIte]
    rw [rdU32_deU32' _ h2]
  | WStat tag fid stat =>
    obtain ⟨h1, h2, h3⟩ := hwf
    simp only [deT, Option.bind_eq_bind, Option.bind_eq_some] at h
    obtain ⟨sb, hsb, h⟩ := h
    split at h
    · next hlen =>
      simp only [Option.pure_def, Option.some.injEq] at h
      subst h
      simp only [List.append_assoc]
      rw [rdT, rdU8_deU8 _ (by norm_num)]
      dsimp only
      rw [rdU16_deU16 _ h1]
      dsimp only
      simp only [Nat.reduceEqDiff, reduceIte]
      rw [rdU32_deU32 _ h2]
      dsimp only
      rw [rdU16_deU16 _ hlen]
      dsimp only
      rw [readExact_exact]
      dsimp only
      rw [rdStat_deStat' _ h3 _ hsb]
    · exact absurd h (by simp)

/-- Hydrating exactly the bytes a well-formed `R` dehydrates to yields
the message back. -/
theorem rdR_deR (m : R) (hwf : m.wf) (bs : Bytes) (h : deR m = some bs) :
    rdR bs = some (m, []) := by
  cases m with
  | Unknown ty tag buf =>
    simp only [R.wf, knownROpcodes, List.mem_cons, List.not_mem_nil,
      or_false, not_or] at hwf
    obtain ⟨hty, hne, htag⟩ := hwf
    simp only [deR, Option.pure_def, Option.some.injEq] at h
    subst h
    rw [rdR, List.append_assoc, rdU8_deU8 _ hty]
    dsimp only
    rw [rdU16_deU16 _ htag]
    dsimp only
    simp only [hne.1, hne.2.1, hne.2.2.1, hne.2.2.2.1, hne.2.2.2.2.1,
      hne.2.2.2.2.2.1, hne.2.2.2.2.2.2.1, hne.2.2.2.2.2.2.2.1,
      hne.2.2.2.2.2.2.2.2.1, hne.2.2.2.2.2.2.2.2.2.1,
      hne.2.2.2.2.2.2.2.2.2.2.1, hne.2.2.2.2.2.2.2.2.2.2.2.1,
      hne.2.2.2.2.2.2.2.2.2.2.2.2.1, hne.2.2.2.2.2.2.2.2.2.2.2.2.2,
      if_false, reduceIte]
  | Version tag msize version =>
    obtain ⟨h1, h2, h3⟩ := hwf
    simp only [deR, Option.bind_eq_bind, Option.bind_eq_some,
      Option.some.injEq, Option.pure_def] at h
    obtain ⟨v, hv, hbs⟩ := h
    subst hbs
    simp only [List.append_assoc]
    rw [rdR, rdU8_deU8 _ (by norm_num)]
    dsimp only
    rw [rdU16_deU16 _ h1]
    dsimp only
    simp only [Nat.reduceEqDiff, reduceIte]
    rw [rdU32_deU32 _ h2]
    dsimp only
    rw [rdVersion_deVersion' _ h3 _ hv]
  | Auth tag aqid =>
    obtain ⟨h1, h2⟩ := hwf
    simp only [deR, Option.pure_def, Option.some.injEq] at h
    subst h
    simp only [List.append_assoc]
    rw [rdR, rdU8_deU8 _ (by norm_num)]
    dsimp only
    rw [rdU16_deU16 _ h1]
    dsimp only
    simp only [Nat.reduceEqDiff, reduceIte]
    have := rdQid_deQid aqid h2 []
    rw [show deQid aqid = deQid aqid ++ [] by simp, this]
  | Attach tag qid =>
    obtain ⟨h1, h2⟩ := hwf
    simp only [deR, Option.pure_def, Option.some.injEq] at h
    subst h
    simp only [List.append_assoc]
    rw [rdR, rdU8_deU8 _ (by norm_num)]
    dsimp only
    rw [rdU16_deU16 _ h1]
    dsimp only
    simp only [Nat.reduceEqDiff, reduceIte]
    have := rdQid_deQid qid h2 []
    rw [show deQid qid = deQid qid ++ [] by simp, this]
  | Error tag ename errno =>
    obtain ⟨h1, h2, h3⟩ := hwf
    simp only [deR, Option.bind_eq_bind, Option.bind_eq_some,
      Option.some.injEq, Option.pure_def] at h
    obtain ⟨e, he, hbs⟩ := h
    subst hbs
    simp only [List.append_assoc]
    rw [rdR, rdU8_deU8 _ (by norm_num)]
    dsimp only
    rw [rdU16_deU16 _ h1]
    dsimp only
    simp only [Nat.reduceEqDiff, reduceIte]
    rw [rdStr_deStr _ h2 _ he]
    dsimp only
    rw [rdU32_deU32' _ h3]
  | Flush tag =>
    simp only [deR, Option.pure_def, Option.some.injEq] at h
    subst h
    rw [rdR, rdU8_deU8 _ (by norm_num)]
    dsimp only
    rw [rdU16_deU16' _ hwf]
    dsimp only
    simp only [Nat.reduceEqDiff, reduceIte]
  | Walk tag qids =>
    obtain ⟨h1, h2⟩ := hwf
    simp only [deR, Option.bind_eq_bind, Option.bind_eq_some,
      Option.some.injEq, Option.pure_def] at h
    obtain ⟨qs, hqs, hbs⟩ := h
    subst hbs
    simp only [List.append_assoc]
    rw [rdR, rdU8_deU8 _ (by norm_num)]
    dsimp only
    rw [rdU16_deU16 _ h1]
    dsimp only
    simp only [Nat.reduceEqDiff, reduceIte]
    rw [rdList_deList' (fun q => some (deQid q)) rdQid qids
      (fun q hq b hb r => by
        cases hb
        exact rdQid_deQid q (h2 q hq) r) qs hqs]
  | Open tag qid iounit =>
    obtain ⟨h1, h2, h3⟩ := hwf
    simp only [deR, Option.pure_def, Option.some.injEq] at h
    subst h
    simp only [List.append_assoc]
    rw [rdR, rdU8_deU8 _ (by norm_num)]
    dsimp only
    rw [rdU16_deU16 _ h1]
    dsimp only
    simp only [Nat.reduceEqDiff, reduceIte]
    rw [rdQid_deQid _ h2]
    dsimp only
    rw [rdU32_deU32' _ h3]
  | Create tag qid iounit =>
    obtain ⟨h1, h2, h3⟩ := hwf
    simp only [deR, Option.pure_def, Option.some.injEq] at h
    subst h
    simp only [List.append_assoc]
    rw [rdR, rdU8_deU8 _ (by norm_num)]
    dsimp only
    rw [rdU16_deU16 _ h1]
    dsimp only
    simp only [Nat.reduceEqDiff, reduceIte]
    rw [rdQid_deQid _ h2]
    dsimp only
    rw [rdU32_deU32' _ h3]
  | Read tag data =>
    rw [deR] at h
    split at h
    · next hlen =>
      simp only [Option.pure_def, Option.some.injEq] at h
      subst h
      simp only [List.append_assoc]
      rw [rdR, rdU8_deU8 _ (by norm_num)]
      dsimp only
      rw [rdU16_deU16 _ hwf]
      dsimp only
      simp only [Nat.reduceEqDiff, reduceIte]
      rw [rdU32_deU32 _ hlen]
      dsimp only
      rw [readExact_exact]
    · exact absurd h (by simp)
  | Write tag n =>
    obtain ⟨h1, h2⟩ := hwf
    simp only [deR, Option.pure_def, Option.some.injEq] at h
    subst h
    simp only [List.append_assoc]
    rw [rdR, rdU8_deU8 _ (by norm_num)]
    dsimp only
    rw [rdU16_deU16 _ h1]
    dsimp only
    simp only [Nat.reduceEqDiff, reduceIte]
    rw [rdU32_deU32' _ h2]
  | Clunk tag =>
    simp only [deR, Option.pure_def, Option.some.injEq] at h
    subst h
    rw [rdR, rdU8_deU8 _ (by norm_num)]
    dsimp only
    rw [rdU16_deU16' _ hwf]
    dsimp only
    simp only [Nat.reduceEqDiff, reduceIte]
  | Remove tag =>
    simp only [deR, Option.pure_def, Option.some.injEq] at h
    subst h
    rw [rdR, rdU8_deU8 _ (by norm_num)]
    dsimp only
    rw [rdU16_deU16' _ hwf]
    dsimp only
    simp only [Nat.reduceEqDiff, reduceIte]
  | Stat tag stat =>
    obtain ⟨h1, h2⟩ := hwf
    simp only [deR, Option.bind_eq_bind, Option.bind_eq_some] at h
    obtain ⟨sb, hsb, h⟩ := h
    split at h
    · next hlen =>
      simp only [Option.pure_def, Option.some.injEq] at h
      subst h
      simp only [List.append_assoc]
      rw [rdR, rdU8_deU8 _ (by norm_num)]
      dsimp only
      rw [rdU16_deU16 _ h1]
      dsimp only
      simp only [Nat.reduceEqDiff, reduceIte]
      rw [rdU16_deU16 _ hlen]
      dsimp only
      rw [readExact_exact]
      dsimp only
      rw [rdStat_deStat' _ h2 _ hsb]
    · exact absurd h (by simp)
  | WStat tag =>
    simp only [deR, Option.pure_def, Option.some.injEq] at h
    subst h
    rw [rdR, rdU8_deU8 _ (by norm_num)]
    dsimp only
    rw [rdU16_deU16' _ hwf]
    dsimp only
    simp only [Nat.reduceEqDiff, reduceIte]

/-! ### Association-list table lemmas -/

theorem alGet_cons {κ β : Type} [BEq κ] (k k' : κ) (v : β) (l : List (κ × β)) :
    alGet k ((k', v) :: l) = if k' == k then some v else alGet k l := by
  simp only [alGet, List.find?]
  cases h : k' == k <;> simp [h]

theorem alErase_cons {κ β : Type} [BEq κ] (k k' : κ) (v : β) (l : List (κ × β)) :
    alErase k ((k', v) :: l) = if k' == k then l else (k', v) :: alErase k l := by
  simp only [alErase, List.eraseP]
  cases h : k' == k <;> simp [h]

theorem alContains_cons {κ β : Type} [BEq κ] (k k' : κ) (v : β)
    (l : List (κ × β)) :
    alContains k ((k', v) :: l) = ((k' == k) || alContains k l) := by
  simp [alContains]

theorem alGet_none_iff {κ β : Type} [BEq κ] (k : κ) (l : List (κ × β)) :
    alGet k l = none ↔ alContains k l = false := by
  induction l with
  | nil => simp [alGet, alContains]
  | cons p rest ih =>
    obtain ⟨k', v⟩ := p
    rw [alGet_cons, alContains_cons]
    cases h : k' == k <;> simp [h, ih]

theorem alGet_eq_none {κ β : Type} [BEq κ] (k : κ) (l : List (κ × β))
    (h : alContains k l = false) : alGet k l = none := by
  induction l with
  | nil => rfl
  | cons p rest ih =>
    obtain ⟨k', v⟩ := p
    rw [alContains_cons] at h
    simp only [Bool.or_eq_false_iff] at h
    rw [alGet_cons, h.1, if_neg (by simp)]
    exact ih h.2

theorem alErase_eq_self {κ β : Type} [BEq κ] (k : κ) (l : List (κ × β))
    (h : alContains k l = false) : alErase k l = l := by
  induction l with
  | nil => rfl
  | cons p rest ih =>
    obtain ⟨k', v⟩ := p
    rw [alContains_cons] at h
    simp only [Bool.or_eq_false_iff] at h
    rw [alErase_cons, h.1, if_neg (by simp)]
    rw [ih h.2]

/-! ### Claim theorems -/

/-- C5: `try_negotiate(self, peer)` is `Err(MismatchedId)` exactly when
the ids differ; with matching ids it is `Ok(self)` when the variants are
equal or `self` has no variant, and `Err(MismatchedVariant)` in every
remaining case. -/
theorem C5_try_negotiate (s p : Version) :
    (s.tryNegotiate p = .error .MismatchedId ↔ s.id ≠ p.id) ∧
    (s.id = p.id →
      ((s.variant = p.variant ∨ s.variant = none) →
        s.tryNegotiate p = .ok s) ∧
      (s.variant ≠ p.variant → s.variant ≠ none →
        s.tryNegotiate p = .error .MismatchedVariant)) := by
  by_cases hid : s.id = p.id
  · refine ⟨⟨fun h => ?_, fun h => absurd hid h⟩,
      fun _ => ⟨fun hv => ?_, fun hv hn => ?_⟩⟩
    · exfalso
      rw [Version.tryNegotiate, if_neg (by simp [hid])] at h
      split at h <;> simp at h
    · rw [Version.tryNegotiate, if_neg (by simp [hid]), if_pos hv]
    · rw [Version.tryNegotiate, if_neg (by simp [hid]),
        if_neg (by simp [hv, hn])]
  · constructor
    · rw [Version.tryNegotiate, if_pos hid]
      simp [hid]
    · intro h
      exact absurd h hid

/-- C5 witness: the negotiation table rows `9P2000 × 9P2000.L` and
`9P2000.L × 9P2000` at concrete inputs. -/
theorem C5_try_negotiate_witness :
    Version.tryNegotiate ⟨ascii "9P2000", none⟩
        ⟨ascii "9P2000", some (ascii "L")⟩ = .ok ⟨ascii "9P2000", none⟩ ∧
    Version.tryNegotiate ⟨ascii "9P2000", some (ascii "L")⟩
        ⟨ascii "9P2000", none⟩ = .error .MismatchedVariant := by
  refine ⟨((C5_try_negotiate _ _).2 (by decide)).1 (by decide),
    ((C5_try_negotiate _ _).2 (by decide)).2 (by decide) (by decide)⟩

/-- C8: for each of the ten named `FileType` variants, encoding to the
u32 mode word and decoding returns the variant; the u8 qid-byte equals
the mode word's top byte for the non-special variants and 0 for
`Device`/`NamedPipe`/`Socket`. -/
theorem C8_filetype_encodings :
    (u32ToFileType (fileTypeToU32 .File) = .File ∧
     u32ToFileType (fileTypeToU32 .Dir) = .Dir ∧
     u32ToFileType (fileTypeToU32 .Append) = .Append ∧
     u32ToFileType (fileTypeToU32 .Excl) = .Excl ∧
     u32ToFileType (fileTypeToU32 .Auth) = .Auth ∧
     u32ToFileType (fileTypeToU32 .Tmp) = .Tmp ∧
     u32ToFileType (fileTypeToU32 .Link) = .Link ∧
     u32ToFileType (fileTypeToU32 .Device) = .Device ∧
     u32ToFileType (fileTypeToU32 .NamedPipe) = .NamedPipe ∧
     u32ToFileType (fileTypeToU32 .Socket) = .Socket) ∧
    (fileTypeToU8 .File = fileTypeToU32 .File >>> 24 ∧
     fileTypeToU8 .Dir = fileTypeToU32 .Dir >>> 24 ∧
     fileTypeToU8 .Append = fileTypeToU32 .Append >>> 24 ∧
     fileTypeToU8 .Excl = fileTypeToU32 .Excl >>> 24 ∧
     fileTypeToU8 .Auth = fileTypeToU32 .Auth >>> 24 ∧
     fileTypeToU8 .Tmp = fileTypeToU32 .Tmp >>> 24 ∧
     fileTypeToU8 .Link = fileTypeToU32 .Link >>> 24) ∧
    (fileTypeToU8 .Device = 0 ∧
     fileTypeToU8 .NamedPipe = 0 ∧
     fileTypeToU8 .Socket = 0) := by
  decide

/-- C7: a message whose encoded frame (payload plus the 4-byte size
prefix) exceeds `msize` makes the writer's `send` fail `TooLong` with
no bytes written; a declared frame size greater than `msize` makes the
reader's `next` fail `TooLong` without consuming the body. -/
theorem C7_frame_size_enforcement :
    (∀ (α : Type) (de : α → Option Bytes) (msize : Nat) (msg : α)
        (payload : Bytes),
      de msg = some payload → payload.length + 4 > msize →
      sendWith de msize msg = ([], some .TooLong)) ∧
    (∀ (msize s : Nat) (stream : Bytes), s > msize → s < 256 ^ 4 →
      nextWith rdT msize (deU32 s ++ stream) = some (.TooLong, stream)) := by
  constructor
  · intro α de msize msg payload hde hgt
    rw [sendWith, hde]
    simp [hgt]
  · intro msize s stream hgt hlt
    rw [nextWith, rdU32_deU32 s hlt]
    simp [hgt]

/-- C7 witness: an `RFlush` frame of 7 bytes against `msize = 5` fails
`TooLong` with nothing written; a declared size of 6 against
`msize = 5` fails `TooLong` leaving the body unread. -/
theorem C7_frame_size_enforcement_witness :
    sendWith deR 5 (.Flush 0) = ([], some .TooLong) ∧
    nextWith rdT 5 (deU32 6 ++ [1, 2]) = some (.TooLong, [1, 2]) :=
  ⟨C7_frame_size_enforcement.1 R deR 5 (.Flush 0) [109, 0, 0] (by decide)
      (by decide),
    C7_frame_size_enforcement.2 5 6 [1, 2] (by decide) (by decide)⟩

/-- C10: for a declared frame size `s ≤ msize` with `s < 4`, the
reader's `next` hits the unchecked `size - 4` underflow and returns no
value at all (modelled `none`) instead of `TooLong` or any error; for
`s ≥ 4` the subtraction is safe and `next` always returns a value. -/
theorem C10_reader_underflow :
    (∀ (msize s : Nat) (stream : Bytes), s ≤ msize → s < 4 → s < 256 ^ 4 →
      nextWith rdT msize (deU32 s ++ stream) = none) ∧
    (∀ (msize s : Nat) (stream : Bytes), 4 ≤ s → s < 256 ^ 4 →
      nextWith rdT msize (deU32 s ++ stream) ≠ none) := by
  constructor
  · intro msize s stream hle h4 hlt
    rw [nextWith, rdU32_deU32 s hlt]
    simp [Nat.not_lt.mpr hle, h4]
  · intro msize s stream h4 hlt
    rw [nextWith, rdU32_deU32 s hlt]
    dsimp only
    by_cases hgt : s > msize
    · simp [hgt]
    · rw [if_neg hgt, if_neg (by omega)]
      cases hre : readExact (s - 4) stream with
      | none => simp
      | some br =>
        obtain ⟨body, rest⟩ := br
        cases hrd : rdT body with
        | none => simp [hrd]
        | some tr => simp [hrd]

/-- C10 witness: a declared size of 0 under `msize = 10` yields no
result (the underflow), while a declared size of 4 yields a value. -/
theorem C10_reader_underflow_witness :
    nextWith rdT 10 (deU32 0 ++ [9, 9]) = none ∧
    nextWith rdT 10 (deU32 4 ++ [9, 9]) ≠ none :=
  ⟨C10_reader_underflow.1 10 0 [9, 9] (by decide) (by decide) (by decide),
    C10_reader_underflow.2 10 4 [9, 9] (by decide) (by decide)⟩

/-- C6: a `TVersion(tag, client_msize, client_version)` during the
handshake: on successful negotiation the step sets both reader and
writer msize to `min(server_msize, client_msize)`, replies `RVersion`
with that msize and the negotiated version, and transitions to Ready;
on failure it replies `RError(tag, debug-reason, 0xFFFFFFFF)` and the
connection terminates. -/
theorem C6_handshake (smsize : Nat) (sversion : Version)
    (rmsize wmsize tag clientMsize : Nat) (clientVersion : Version) :
    (∀ connVersion, sversion.tryNegotiate clientVersion = .ok connVersion →
      handshake1 smsize sversion rmsize wmsize
          (.Version tag clientMsize clientVersion) =
        ⟨min smsize clientMsize, min smsize clientMsize,
          [.Version tag (min smsize clientMsize) connVersion],
          .ready (min smsize clientMsize) connVersion⟩) ∧
    (∀ e, sversion.tryNegotiate clientVersion = .error e →
      handshake1 smsize sversion rmsize wmsize
          (.Version tag clientMsize clientVersion) =
        ⟨rmsize, wmsize, [.Error tag (dbgVersionError e) 0xFFFFFFFF],
          .closed⟩) := by
  constructor
  · intro connVersion hok
    rw [handshake1]
    rw [hok]
  · intro e herr
    rw [handshake1]
    rw [herr]

/-- C6 witness: a `9P2000.u` server offered `9P2000.u` with a smaller
client msize completes the handshake at the client's msize; offered
`9P2000.L` it fails and closes. -/
theorem C6_handshake_witness :
    handshake1 0xFFFFFF00 ⟨ascii "9P2000", some (ascii "u")⟩ 7 7
        (.Version 0xFFFF 65536 ⟨ascii "9P2000", some (ascii "u")⟩) =
      ⟨65536, 65536,
        [.Version 0xFFFF 65536 ⟨ascii "9P2000", some (ascii "u")⟩],
        .ready 65536 ⟨ascii "9P2000", some (ascii "u")⟩⟩ ∧
    handshake1 0xFFFFFF00 ⟨ascii "9P2000", some (ascii "u")⟩ 7 7
        (.Version 1 9 ⟨ascii "9P2000", some (ascii "L")⟩) =
      ⟨7, 7, [.Error 1 (ascii "MismatchedVariant") 0xFFFFFFFF], .closed⟩ := by
  constructor
  · exact (C6_handshake 0xFFFFFF00 _ 7 7 0xFFFF 65536 _).1 _ (by rfl)
  · exact (C6_handshake 0xFFFFFF00 _ 7 7 1 9 _).2 .MismatchedVariant (by rfl)

/-- C1 (amended): a `TFlush(tag, oldtag)` dispatched in the Ready state
with a fresh `tag` and `oldtag ≠ tag` removes `oldtag` from the tag
table (a no-op when absent) and sends exactly `RFlush(tag)`; and, in
general, a dispatch whose own tag is gone from the tag table when it
completes — in particular the flushed request itself — sends nothing. -/
theorem C1_flush_amended {F OF : Type} (ops : FileOps F OF)
    (fss : List (Bytes × Filesystem F)) (msize : Nat) :
    (∀ (st : ConnState F OF) (tag oldtag : Nat),
      alContains tag st.requests = false → oldtag ≠ tag →
      readyStep ops fss msize st (.Flush tag oldtag) =
        ({ st with requests := alErase oldtag st.requests }, [.Flush tag])) ∧
    (∀ (st : ConnState F OF) (t : T),
      alContains t.tag st.requests = false →
      alContains t.tag
        (messageHandler ops fss msize
          { st with requests := (t.tag, t) :: st.requests } t).1.requests
        = false →
      (readyStep ops fss msize st t).2 = []) := by
  constructor
  · intro st tag oldtag hfresh hne
    have houter : ∀ rs : List (Nat × T),
        reqRemove tag ((tag, T.Flush tag oldtag) :: rs) =
          .ok (T.Flush tag oldtag, rs) := by
      intro rs
      rw [reqRemove, alGet_cons, if_pos (by simp)]
      dsimp only
      rw [alErase_cons, if_pos (by simp)]
    rw [readyStep]
    dsimp only [T.tag]
    rw [reqInsert, if_neg (by simp [hfresh])]
    dsimp only [messageHandler]
    cases halg : alGet oldtag st.requests with
    | none =>
      have hinner : reqRemove oldtag ((tag, T.Flush tag oldtag) :: st.requests)
          = .error .NoSuchTag := by
        rw [reqRemove, alGet_cons,
          if_neg (by simp [beq_eq_false_iff_ne, Ne.symm hne]), halg]
      rw [hinner]
      dsimp only
      rw [houter]
      dsimp only
      rw [alErase_eq_self oldtag st.requests ((alGet_none_iff _ _).mp halg)]
    | some t' =>
      have hinner : reqRemove oldtag ((tag, T.Flush tag oldtag) :: st.requests)
          = .ok (t', (tag, T.Flush tag oldtag) :: alErase oldtag st.requests) := by
        rw [reqRemove, alGet_cons,
          if_neg (by simp [beq_eq_false_iff_ne, Ne.symm hne]), halg]
        dsimp only
        rw [alErase_cons, if_neg (by simp [beq_eq_false_iff_ne, Ne.symm hne])]
      rw [hinner]
      dsimp only
      rw [houter]
  · intro st t hfresh habs
    rw [readyStep]
    rw [reqInsert, if_neg (by simp [hfresh])]
    dsimp only
    rw [reqRemove, alGet_eq_none _ _ habs]

/-- C1 counterexample: a `TFlush` whose `oldtag` equals its own tag
removes its own tag-table entry during dispatch, so the Ready loop
discards the `RFlush` — nothing is sent on the wire, contradicting
"replies RFlush(tag) … always, including when oldtag equals the flush's
own tag". -/
theorem C1_counterexample :
    (readyStep unitOps [] 4096 ⟨[], []⟩ (.Flush 5 5)).2 = [] := by rfl

/-- C1 witness: flushing live tag 3 with a fresh tag 5 empties the tag
table and sends exactly `RFlush(5)`. -/
theorem C1_flush_amended_witness :
    readyStep unitOps [] 4096 ⟨[], [(3, .Clunk 3 0)]⟩ (.Flush 5 3) =
      ({ handles := [], requests := alErase 3 [(3, .Clunk 3 0)] },
        [.Flush 5]) :=
  (C1_flush_amended unitOps [] 4096).1 ⟨[], [(3, .Clunk 3 0)]⟩ 5 3
    (by rfl) (by decide)

/-- C2 evidence: dispatching
`TAttach(tag=1, fid=0, afid=NOFID, uname="alice", aname="", nuname=0)`
against a filesystem registered at aname `""` whose `attach` returns its
first declared parameter (`aname`) stores the request's **uname** as
the root file: the call site passes `uname` in the declared-`aname`
position (and `aname` in the declared-`uname` position), contradicting
the claimed binding. -/
theorem C2_attach_argument_swap :
    messageHandler probeOps [([], probeFs)] 4096 ⟨[], []⟩
        (.Attach 1 0 0xFFFFFFFF (ascii "alice") [] 0) =
      (⟨[(0, ⟨⟨ascii "alice", []⟩, ascii "alice", none⟩)], []⟩,
        .ok (.Attach 1 ⟨.Dir, 0, 1⟩)) ∧
    ascii "alice" ≠ ([] : Bytes) := by
  exact ⟨rfl, by decide⟩

/-- C4 (amended): dispatch of `TWalk` on a live `fid`: with
`final = None` the reply is `RError ENOENT` on an exact-length
intermediates list and `RWalk` of the traversed qids (binding nothing)
on a shorter one; with `final = Some f` a length mismatch replies
`RError EINVAL`, and otherwise — provided `newfid` is not already
live — `newfid` is bound to the walk target under the starting fid's
session and the reply is `RWalk` of the qids. -/
theorem C4_walk_amended {F OF : Type} (ops : FileOps F OF)
    (fss : List (Bytes × Filesystem F)) (msize : Nat) (st : ConnState F OF)
    (tag fid newfid : Nat) (path : List Bytes) (h : FileHandle F OF)
    (hGet : alGet fid st.handles = some h) :
    (∀ files, ops.walk h.file path = .ok (none, files) →
      files.length = path.length →
      messageHandler ops fss msize st (.Walk tag fid newfid path) =
        (st, .ok (.Error tag (ascii "ENOENT") 2))) ∧
    (∀ files, ops.walk h.file path = .ok (none, files) →
      files.length < path.length →
      messageHandler ops fss msize st (.Walk tag fid newfid path) =
        (st, .ok (.Walk tag (files.map ops.qid)))) ∧
    (∀ f files, ops.walk h.file path = .ok (some f, files) →
      files.length ≠ path.length →
      messageHandler ops fss msize st (.Walk tag fid newfid path) =
        (st, .ok (.Error tag (ascii "EINVAL") 22))) ∧
    (∀ f files, ops.walk h.file path = .ok (some f, files) →
      files.length = path.length → alContains newfid st.handles = false →
      messageHandler ops fss msize st (.Walk tag fid newfid path) =
        ({ st with handles := (newfid, ⟨h.session, f, none⟩) :: st.handles },
          .ok (.Walk tag (files.map ops.qid)))) := by
  refine ⟨fun files hwalk hlen => ?_, fun files hwalk hlen => ?_,
    fun f files hwalk hlen => ?_, fun f files hwalk hlen hfree => ?_⟩
  · dsimp only [messageHandler]
    rw [fhGet, hGet]
    dsimp only
    rw [hwalk]
    dsimp only
    rw [if_pos hlen]
  · dsimp only [messageHandler]
    rw [fhGet, hGet]
    dsimp only
    rw [hwalk]
    dsimp only
    rw [if_neg (by omega)]
  · dsimp only [messageHandler]
    rw [fhGet, hGet]
    dsimp only
    rw [hwalk]
    dsimp only
    rw [if_pos hlen]
  · dsimp only [messageHandler]
    rw [fhGet, hGet]
    dsimp only
    rw [hwalk]
    dsimp only
    rw [if_neg (by simp [hlen])]
    rw [fhInsert, if_neg (by simp [hfree])]

/-- C4 counterexample: on a walk whose back-end returns a matching-length
`Some` target but whose `newfid` (here 1) is already live, the wire
reply is the `FidAlreadyExists` error, not `RWalk`, and nothing is
re-bound — the claim's unconditional "otherwise newfid is bound … and
the reply is RWalk" fails. -/
theorem C4_counterexample :
    (readyStep walkOps [] 4096
        ⟨[(0, ⟨⟨[], []⟩, (), none⟩), (1, ⟨⟨[], []⟩, (), none⟩)], []⟩
        (.Walk 7 0 1 [[97]])).2 =
      [.Error 7 (ascii "FileHandlesError(FidAlreadyExists)") 0xFFFFFFFF] := by
  rfl

/-- C4 witness: the successful-bind clause at a concrete one-step walk
to a fresh `newfid = 1`. -/
theorem C4_walk_amended_witness :
    messageHandler walkOps [] 4096 ⟨[(0, ⟨⟨[], []⟩, (), none⟩)], []⟩
        (.Walk 7 0 1 [[97]]) =
      ({ handles := (1, ⟨⟨[], []⟩, (), none⟩) :: [(0, ⟨⟨[], []⟩, (), none⟩)],
          requests := [] },
        .ok (.Walk 7 [⟨.Dir, 0, 7⟩])) :=
  (C4_walk_amended walkOps [] 4096 ⟨[(0, ⟨⟨[], []⟩, (), none⟩)], []⟩ 7 0 1
      [[97]] ⟨⟨[], []⟩, (), none⟩ (by rfl)).2.2.2 () [()]
    (by rfl) (by rfl) (by rfl)

/-- C9: a successful `TCreate` dispatch on a live fid leaves the fid's
session and file untouched (still the parent; the hypothesis records
that the back-end's `create(&mut self)` left the receiver in place),
replaces only the optional open-file state with the open handle of the
new child, and replies `RCreate(tag, qid of the new child, 0)`. -/
theorem C9_create_frame_effect {F OF : Type} (ops : FileOps F OF)
    (fss : List (Bytes × Filesystem F)) (msize : Nat) (st : ConnState F OF)
    (tag fid : Nat) (name : Bytes) (perm mode : Nat) (ext : Bytes)
    (h : FileHandle F OF) (child child' : F) (opened : OF)
    (hGet : alGet fid st.handles = some h)
    (hCreate : ops.create h.file name (perm &&& 0o777) (u32ToFileType perm)
      mode ext = .ok (h.file, child))
    (hOpen : ops.openf child mode = .ok (child', opened)) :
    messageHandler ops fss msize st (.Create tag fid name perm mode ext) =
      ({ st with
          handles := alSet fid ⟨h.session, h.file, some opened⟩ st.handles },
        .ok (.Create tag (ops.qid child') 0)) := by
  dsimp only [messageHandler]
  rw [fhGet, hGet]
  dsimp only
  rw [hCreate]
  dsimp only
  rw [hOpen]

/-- C9 witness: a concrete create on a live fid 0 with a succeeding
back-end. -/
theorem C9_create_frame_effect_witness :
    messageHandler createOps [] 4096 ⟨[(0, ⟨⟨[], []⟩, (), none⟩)], []⟩
        (.Create 4 0 (ascii "f") 420 0 []) =
      ({ handles := alSet 0 ⟨⟨[], []⟩, (), some ()⟩ [(0, ⟨⟨[], []⟩, (), none⟩)],
          requests := [] },
        .ok (.Create 4 ⟨.File, 0, 2⟩ 0)) :=
  C9_create_frame_effect createOps [] 4096 ⟨[(0, ⟨⟨[], []⟩, (), none⟩)], []⟩
    4 0 (ascii "f") 420 0 [] ⟨⟨[], []⟩, (), none⟩ () () ()
    (by rfl) (by rfl) (by rfl)

/-- C3 (amended): for every value of the twelve codec types —
restricted to values a Rust program can hold (integers within their bit
widths, strings valid UTF-8), with qid type bytes that survive the u8
encoding, version ids containing no `.`, and `Unknown` messages whose
type byte is not a recognized opcode — hydrating exactly the bytes
dehydrate produced yields the value back. -/
theorem C3_round_trip_amended :
    (∀ v : Nat, v < 256 → rdU8 (deU8 v) = some (v, [])) ∧
    (∀ v : Nat, v < 256 ^ 2 → rdU16 (deU16 v) = some (v, [])) ∧
    (∀ v : Nat, v < 256 ^ 4 → rdU32 (deU32 v) = some (v, [])) ∧
    (∀ v : Nat, v < 256 ^ 8 → rdU64 (deU64 v) = some (v, [])) ∧
    (∀ s bs : Bytes, utf8Valid s = true → deStr s = some bs →
      rdStr bs = some (s, [])) ∧
    (∀ l bs : Bytes, deBytes l = some bs → rdBytes bs = some (l, [])) ∧
    (∀ (l : List Bytes) (bs : Bytes), (∀ s ∈ l, utf8Valid s = true) →
      deList deStr l = some bs → rdList rdStr bs = some (l, [])) ∧
    (∀ (l : List Qid) (bs : Bytes), (∀ q ∈ l, q.wf) →
      deList (fun q => some (deQid q)) l = some bs →
      rdList rdQid bs = some (l, [])) ∧
    (∀ q : Qid, q.wf → rdQid (deQid q) = some (q, [])) ∧
    (∀ (s : Stat) (bs : Bytes), s.wf → deStat s = some bs →
      rdStat bs = some (s, [])) ∧
    (∀ (t : T) (bs : Bytes), t.wf → deT t = some bs →
      rdT bs = some (t, [])) ∧
    (∀ (m : R) (bs : Bytes), m.wf → deR m = some bs →
      rdR bs = some (m, [])) := by
  refine ⟨rdU8_deU8', rdU16_deU16', rdU32_deU32', rdU64_deU64',
    fun s bs hu hd => rdStr_deStr' s hu bs hd,
    fun l bs hd => ?_,
    fun l bs hu hd => rdList_deList' deStr rdStr l
      (fun s hs b hb r => rdStr_deStr s (hu s hs) b hb r) bs hd,
    fun l bs hq hd => rdList_deList' (fun q => some (deQid q)) rdQid l
      (fun q hq' b hb r => by cases hb; exact rdQid_deQid q (hq q hq') r)
      bs hd,
    fun q hq => ?_,
    fun s bs hs hd => rdStat_deStat' s hs bs hd,
    fun t bs ht hd => rdT_deT t ht bs hd,
    fun m bs hm hd => rdR_deR m hm bs hd⟩
  · have := rdBytes_deBytes l bs hd []
    simpa using this
  · have := rdQid_deQid q hq []
    simpa using this

/-- C3 counterexample: `T::Unknown(100, 0, [])` dehydrates successfully
to `[100, 0, 0]`, but hydrating those bytes takes the `TVersion` opcode
path and fails — `hydrate(dehydrate(v))` is not `v`, so the unrestricted
round-trip law is false. -/
theorem C3_counterexample :
    deT (.Unknown 100 0 []) = some [100, 0, 0] ∧
    rdT [100, 0, 0] = none := by decide

/-- C3 witness: the `T` component at the concrete message
`TFlush(1, 2)`. -/
theorem C3_round_trip_amended_witness :
    rdT [108, 1, 0, 2, 0] = some (.Flush 1 2, []) :=
  C3_round_trip_amended.2.2.2.2.2.2.2.2.2.2.1 (.Flush 1 2) [108, 1, 0, 2, 0]
    (by decide) (by decide)

end Arigato
